import Mathlib

/-
Shallow embedding of the data-access layer (class RecipeDatabase) of
src/recipeorganizer.py.

Modelling conventions:
* Each SQLite table becomes a Lean list of row structures, rows appended in
  insertion order.  SQLite (no AUTOINCREMENT anywhere in the schema) assigns
  a fresh insert the rowid max(rowid currently in the table) + 1, so after a
  DELETE the largest ids are reused.  create_shopping_list computes its new
  id exactly that way, since delete_shopping_list shrinks that table and id
  reuse is observable through the surviving (orphaned) item rows.  Tables
  kept in step by a per-table counter coincide with this rule while the
  table has never shrunk; for the recipes table the counter ignores reuse
  after delete_recipe, on which no stated property depends.
* SQLite REAL quantities are modelled as rationals.
* Python dicts passed to the repository are modelled as structures; keys whose
  presence or absence changes behaviour are Option fields, keys read with
  dict.get and a default are plain fields carrying that default.
* The sqlite3 connection of the source never executes PRAGMA foreign_keys ON,
  and SQLite keeps foreign-key enforcement OFF by default; the declared
  ON DELETE CASCADE and ON DELETE SET NULL clauses of _create_tables are
  therefore inert at runtime.  The embedding reproduces that: DELETE
  statements remove rows only from the table they name.
* Statements that hit a NOT NULL or PRIMARY KEY violation raise
  sqlite3.IntegrityError in the source; fallible operations return Except.
* Columns no operation of the claims reads or writes beyond storing them are
  kept; date_added / date_created columns are omitted (CURRENT_TIMESTAMP
  wall-clock defaults, no examined behaviour depends on them); the date used
  in a generated default shopping-list name is passed in as a parameter.
-/

namespace RecipeOrganizer

/-- SQLite REAL quantities, modelled as rationals. -/
abbrev Qty := ℚ

/-- Row of the recipes table (date_added omitted, see header). -/
structure RecipeRow where
  id : Nat
  name : String
  description : String
  instructions : String
  prep_time : Nat
  cook_time : Nat
  servings : Nat
  difficulty : String
  source : String
  notes : String
  favorite : Bool
  deriving DecidableEq, Repr

/-- Row of the categories table and of the tags table (id, unique name). -/
structure LabelRow where
  id : Nat
  name : String
  deriving DecidableEq, Repr

/-- Row of the ingredients table. -/
structure IngredientRow where
  id : Nat
  name : String
  category : String
  unit : String
  deriving DecidableEq, Repr

/-- Row of the recipe_categories and of the recipe_tags join tables, which
share one shape: label_id stands for the category_id column in
recipe_categories and for the tag_id column in recipe_tags. -/
structure LinkRow where
  recipe_id : Nat
  label_id : Nat
  deriving DecidableEq, Repr

/-- Row of the recipe_ingredients join table. -/
structure RecipeIngredientRow where
  recipe_id : Nat
  ingredient_id : Nat
  quantity : Qty
  unit : String
  notes : String
  deriving DecidableEq, Repr

/-- Row of the shopping_lists table (date_created omitted, see header). -/
structure ShoppingListRow where
  id : Nat
  name : String
  notes : String
  deriving DecidableEq, Repr

/-- Row of the shopping_list_items table; ingredient_id is a nullable
foreign key column. -/
structure ShoppingListItemRow where
  id : Nat
  shopping_list_id : Nat
  ingredient_id : Option Nat
  quantity : Qty
  unit : String
  checked : Bool
  notes : String
  deriving DecidableEq, Repr

/-- The whole database: one list per table plus the rowid counters. -/
structure Store where
  recipes : List RecipeRow
  categories : List LabelRow
  tags : List LabelRow
  ingredients : List IngredientRow
  recipe_categories : List LinkRow
  recipe_tags : List LinkRow
  recipe_ingredients : List RecipeIngredientRow
  shopping_lists : List ShoppingListRow
  shopping_list_items : List ShoppingListItemRow
  next_recipe_id : Nat
  next_category_id : Nat
  next_tag_id : Nat
  next_ingredient_id : Nat
  next_list_id : Nat
  next_item_id : Nat
  deriving DecidableEq, Repr

/-- Seed rows of _create_tables for the categories table. -/
def defaultCategories : List String :=
  ["Breakfast", "Lunch", "Dinner", "Dessert",
   "Appetizer", "Snack", "Soup", "Salad",
   "Main Course", "Side Dish", "Beverage", "Baked Goods"]

/-- Seed rows of _create_tables for the tags table. -/
def defaultTags : List String :=
  ["Vegetarian", "Vegan", "Gluten-Free", "Dairy-Free",
   "Nut-Free", "Low-Carb", "High-Protein", "Quick",
   "Easy", "Budget-Friendly", "One-Pot", "Kid-Friendly"]

/-- INSERT OR IGNORE INTO categories/tags (name) VALUES (?) : the unique
name constraint turns the insert into a no-op when the name exists. -/
def insertLabelIgnore (tbl : List LabelRow) (next : Nat) (nm : String) :
    List LabelRow × Nat :=
  if tbl.any (fun c => c.name == nm) then (tbl, next)
  else (tbl ++ [⟨next, nm⟩], next + 1)

/-- executemany of INSERT OR IGNORE over a list of seed names. -/
def seedLabels (init : List LabelRow × Nat) (names : List String) :
    List LabelRow × Nat :=
  names.foldl (fun acc nm => insertLabelIgnore acc.1 acc.2 nm) init

/-- The store produced by __init__ / _create_tables on a fresh database file:
empty tables except the seeded default categories and tags. -/
def freshStore : Store :=
  let cats := seedLabels ([], 1) defaultCategories
  let tgs := seedLabels ([], 1) defaultTags
  { recipes := []
    categories := cats.1
    tags := tgs.1
    ingredients := []
    recipe_categories := []
    recipe_tags := []
    recipe_ingredients := []
    shopping_lists := []
    shopping_list_items := []
    next_recipe_id := 1
    next_category_id := cats.2
    next_tag_id := tgs.2
    next_ingredient_id := 1
    next_list_id := 1
    next_item_id := 1 }

/-- One entry of the list recipe_data['ingredients']: a dict read with
ingredient.get; only the name key lacks a default (absent name becomes
None). -/
structure IngredientData where
  name : Option String := none
  quantity : Qty := 0
  unit : String := ""
  notes : String := ""
  category : String := ""
  deriving DecidableEq, Repr

/-- The recipe_data dict taken by add_recipe / update_recipe.  Fields read
with dict.get and a default carry that default; name has no default (absent
name becomes None, which the NOT NULL column rejects); categories, tags and
ingredients are Option because key presence itself changes behaviour; the id
key may be present (import payloads carry it) and is never read by
add_recipe. -/
structure RecipeData where
  id : Option Nat := none
  name : Option String := none
  description : String := ""
  instructions : String := ""
  prep_time : Nat := 0
  cook_time : Nat := 0
  servings : Nat := 1
  difficulty : String := "Medium"
  source : String := ""
  notes : String := ""
  favorite : Bool := false
  categories : Option (List String) := none
  tags : Option (List String) := none
  ingredients : Option (List IngredientData) := none
  deriving DecidableEq, Repr

/-- sqlite3 exceptions the modelled statements can raise. -/
inductive DBError where
  /-- IntegrityError: NOT NULL constraint failed. -/
  | notNullViolation
  /-- IntegrityError: UNIQUE / PRIMARY KEY constraint failed. -/
  | uniqueViolation
  /-- AttributeError: .get called on a parsed JSON value that is not a dict. -/
  | attributeError
  deriving DecidableEq, Repr

/-- SELECT id FROM categories/tags WHERE name = ? followed by fetchone, then
INSERT when absent: returns the updated table, counter and the id found or
created. -/
def getOrCreateLabel (tbl : List LabelRow) (next : Nat) (nm : String) :
    (List LabelRow × Nat) × Nat :=
  match tbl.find? (fun c => c.name == nm) with
  | some c => ((tbl, next), c.id)
  | none => ((tbl ++ [⟨next, nm⟩], next + 1), next)

/-- INSERT OR IGNORE INTO recipe_categories (recipe_id, category_id), and
likewise for recipe_tags: a no-op when the composite primary key exists. -/
def insertLinkIgnore (tbl : List LinkRow) (rid lblid : Nat) : List LinkRow :=
  if tbl.any (fun l => l.recipe_id == rid && l.label_id == lblid) then tbl
  else tbl ++ [⟨rid, lblid⟩]

/-- The label loop shared by the category and tag blocks of add_recipe and
update_recipe, acting on the three pieces of state it touches: for each
name in order, get-or-create the label row, then link it to the recipe with
INSERT OR IGNORE. -/
def labelLoop (rid : Nat) :
    List String → List LabelRow × Nat × List LinkRow →
      List LabelRow × Nat × List LinkRow
  | [], acc => acc
  | nm :: rest, (tbl, next, links) =>
    let r := getOrCreateLabel tbl next nm
    labelLoop rid rest (r.1.1, r.1.2, insertLinkIgnore links rid r.2)

/-- The category loop of add_recipe and update_recipe. -/
def addCategoriesLoop (s : Store) (rid : Nat) (names : List String) : Store :=
  let r := labelLoop rid names (s.categories, s.next_category_id, s.recipe_categories)
  { s with
    categories := r.1
    next_category_id := r.2.1
    recipe_categories := r.2.2 }

/-- The tag loop of add_recipe and update_recipe. -/
def addTagsLoop (s : Store) (rid : Nat) (names : List String) : Store :=
  let r := labelLoop rid names (s.tags, s.next_tag_id, s.recipe_tags)
  { s with
    tags := r.1
    next_tag_id := r.2.1
    recipe_tags := r.2.2 }

/-- SELECT id FROM ingredients WHERE name = ? then INSERT when absent, as in
the ingredient loops; a None name finds nothing (SQL NULL equality) and the
insert then violates NOT NULL, raising. -/
def getOrCreateIngredient (tbl : List IngredientRow) (next : Nat)
    (nm cat unit : String) : (List IngredientRow × Nat) × Nat :=
  match tbl.find? (fun i => i.name == nm) with
  | some i => ((tbl, next), i.id)
  | none => ((tbl ++ [⟨next, nm, cat, unit⟩], next + 1), next)

/-- The ingredient loop shared by add_recipe and update_recipe: get-or-create
each ingredient by name, then a plain INSERT INTO recipe_ingredients, which
raises on a duplicate (recipe_id, ingredient_id) primary key. -/
def addIngredientsLoop (s : Store) (rid : Nat) :
    List IngredientData → Except DBError Store
  | [] => .ok s
  | ing :: rest =>
    match ing.name with
    | none => .error .notNullViolation
    | some nm =>
      let r := getOrCreateIngredient s.ingredients s.next_ingredient_id
        nm ing.category ing.unit
      if s.recipe_ingredients.any
          (fun l => l.recipe_id == rid && l.ingredient_id == r.2) then
        .error .uniqueViolation
      else
        addIngredientsLoop
          { s with
            ingredients := r.1.1
            next_ingredient_id := r.1.2
            recipe_ingredients :=
              s.recipe_ingredients ++ [⟨rid, r.2, ing.quantity, ing.unit, ing.notes⟩] }
          rid rest

/-- The recipe row add_recipe inserts from recipe_data d (name nm) under the
fresh rowid. -/
def newRecipeRow (s : Store) (nm : String) (d : RecipeData) : RecipeRow :=
  ⟨s.next_recipe_id, nm, d.description, d.instructions, d.prep_time,
   d.cook_time, d.servings, d.difficulty, d.source, d.notes, d.favorite⟩

/-- The block of add_recipe guarded by: if 'categories' in recipe_data and
recipe_data['categories'] (key present and truthy). -/
def catsStageAdd (s : Store) (rid : Nat) (co : Option (List String)) : Store :=
  match co with
  | some cats => if cats.isEmpty then s else addCategoriesLoop s rid cats
  | none => s

/-- The block of add_recipe guarded by: if 'tags' in recipe_data and
recipe_data['tags']. -/
def tagsStageAdd (s : Store) (rid : Nat) (to0 : Option (List String)) : Store :=
  match to0 with
  | some ts => if ts.isEmpty then s else addTagsLoop s rid ts
  | none => s

/-- The block of add_recipe guarded by: if 'ingredients' in recipe_data and
recipe_data['ingredients']. -/
def ingsStageAdd (s : Store) (rid : Nat) (io : Option (List IngredientData)) :
    Except DBError Store :=
  match io with
  | some ings => if ings.isEmpty then .ok s else addIngredientsLoop s rid ings
  | none => .ok s

/-- def add_recipe(self, recipe_data): inserts the recipe row (a None name
violates NOT NULL immediately, before any other write), then runs the
category / tag / ingredient blocks, and returns the new rowid. -/
def add_recipe (s : Store) (d : RecipeData) : Except DBError (Store × Nat) :=
  match d.name with
  | none => .error .notNullViolation
  | some nm =>
    let rid := s.next_recipe_id
    let s1 : Store := { s with
      recipes := s.recipes ++ [newRecipeRow s nm d]
      next_recipe_id := rid + 1 }
    (ingsStageAdd (tagsStageAdd (catsStageAdd s1 rid d.categories) rid d.tags)
        rid d.ingredients).map (fun s4 => (s4, rid))

/-- One row of the ingredient join returned inside get_recipe. -/
structure IngredientOut where
  id : Nat
  name : String
  quantity : Qty
  unit : String
  notes : String
  category : String
  deriving DecidableEq, Repr

/-- The dict returned by get_recipe (date_added omitted, see header). -/
structure Recipe where
  id : Nat
  name : String
  description : String
  instructions : String
  prep_time : Nat
  cook_time : Nat
  servings : Nat
  difficulty : String
  source : String
  notes : String
  favorite : Bool
  ingredients : List IngredientOut
  categories : List String
  tags : List String
  deriving DecidableEq, Repr

/-- SELECT ... FROM recipe_ingredients ri JOIN ingredients i ON
ri.ingredient_id = i.id WHERE ri.recipe_id = ? . -/
def ingRowsOf (links : List RecipeIngredientRow) (tbl : List IngredientRow)
    (rid : Nat) : List IngredientOut :=
  (links.filter (fun ri => ri.recipe_id == rid)).flatMap (fun ri =>
    (tbl.filter (fun i => i.id == ri.ingredient_id)).map (fun i =>
      ⟨i.id, i.name, ri.quantity, ri.unit, ri.notes, i.category⟩))

def recipeIngredientsOf (s : Store) (rid : Nat) : List IngredientOut :=
  ingRowsOf s.recipe_ingredients s.ingredients rid

/-- The label-name join shared by the category and tag SELECTs of
get_recipe: link rows of the recipe joined with their label row, projected
onto the name. -/
def labelNamesOf (links : List LinkRow) (tbl : List LabelRow) (rid : Nat) :
    List String :=
  (links.filter (fun l => l.recipe_id == rid)).flatMap (fun l =>
    (tbl.filter (fun c => c.id == l.label_id)).map (fun c => c.name))

/-- SELECT c.name FROM recipe_categories rc JOIN categories c ON
rc.category_id = c.id WHERE rc.recipe_id = ? . -/
def recipeCategoryNames (s : Store) (rid : Nat) : List String :=
  labelNamesOf s.recipe_categories s.categories rid

/-- SELECT t.name FROM recipe_tags rt JOIN tags t ON rt.tag_id = t.id WHERE
rt.recipe_id = ? . -/
def recipeTagNames (s : Store) (rid : Nat) : List String :=
  labelNamesOf s.recipe_tags s.tags rid

/-- def get_recipe(self, recipe_id): None when no recipe row matches, else
the row together with its joined ingredients, categories and tags. -/
def get_recipe (s : Store) (rid : Nat) : Option Recipe :=
  (s.recipes.find? (fun r => r.id == rid)).map (fun r =>
    ⟨r.id, r.name, r.description, r.instructions, r.prep_time, r.cook_time,
     r.servings, r.difficulty, r.source, r.notes, r.favorite,
     recipeIngredientsOf s rid, recipeCategoryNames s rid, recipeTagNames s rid⟩)

/-- def update_recipe(self, recipe_id, recipe_data): False when the id does
not exist; else overwrites the scalar columns (a None name violates the NOT
NULL column and raises before any link change), and for each of categories /
tags / ingredients whose KEY is present (empty list included) deletes all
existing links of the recipe and reruns the shared insert loop. -/
def updatedRecipeRow (nm : String) (d : RecipeData) (r : RecipeRow) : RecipeRow :=
  { r with
    name := nm
    description := d.description
    instructions := d.instructions
    prep_time := d.prep_time
    cook_time := d.cook_time
    servings := d.servings
    difficulty := d.difficulty
    source := d.source
    notes := d.notes
    favorite := d.favorite }

/-- The block of update_recipe guarded by: if 'categories' in recipe_data
(key present, even bound to the empty list): delete all category links of
the recipe, then rerun the shared insert loop. -/
def catsStageUpd (s : Store) (rid : Nat) (co : Option (List String)) : Store :=
  match co with
  | some cats => addCategoriesLoop
      { s with recipe_categories :=
        s.recipe_categories.filter (fun l => l.recipe_id ≠ rid) } rid cats
  | none => s

/-- The block of update_recipe guarded by: if 'tags' in recipe_data. -/
def tagsStageUpd (s : Store) (rid : Nat) (to0 : Option (List String)) : Store :=
  match to0 with
  | some ts => addTagsLoop
      { s with recipe_tags :=
        s.recipe_tags.filter (fun l => l.recipe_id ≠ rid) } rid ts
  | none => s

/-- The block of update_recipe guarded by: if 'ingredients' in recipe_data. -/
def ingsStageUpd (s : Store) (rid : Nat) (io : Option (List IngredientData)) :
    Except DBError Store :=
  match io with
  | some ings => addIngredientsLoop
      { s with recipe_ingredients :=
        s.recipe_ingredients.filter (fun l => l.recipe_id ≠ rid) } rid ings
  | none => .ok s

/-- The UPDATE recipes SET ... WHERE id = ? statement of update_recipe: every
row carrying the id gets its scalar columns overwritten. -/
def scalarOverwrite (s : Store) (rid : Nat) (nm : String) (d : RecipeData) :
    List RecipeRow :=
  s.recipes.map (fun r => if r.id = rid then updatedRecipeRow nm d r else r)

def update_recipe (s : Store) (rid : Nat) (d : RecipeData) :
    Except DBError (Store × Bool) :=
  if s.recipes.any (fun r => r.id == rid) then
    match d.name with
    | none => .error .notNullViolation
    | some nm =>
      let s1 : Store := { s with recipes := scalarOverwrite s rid nm d }
      (ingsStageUpd (tagsStageUpd (catsStageUpd s1 rid d.categories) rid d.tags)
          rid d.ingredients).map (fun s4 => (s4, true))
  else .ok (s, false)

/-- def delete_recipe(self, recipe_id): False when absent; else DELETE FROM
recipes WHERE id = ? . Only the recipes table loses rows: the source comment
expects the foreign keys to cascade, but PRAGMA foreign_keys is never
enabled, so the recipe_categories / recipe_tags / recipe_ingredients link
rows survive. -/
def delete_recipe (s : Store) (rid : Nat) : Store × Bool :=
  if s.recipes.any (fun r => r.id == rid) then
    ({ s with recipes := s.recipes.filter (fun r => r.id ≠ rid) }, true)
  else (s, false)

/-- SQLite LIKE pattern matching (no ESCAPE clause): percent matches any
sequence, underscore any single character, other characters match
case-insensitively (SQLite folds ASCII only, as Char.toLower does).
Structural recursion on the pattern: percent tries every suffix. -/
def likeMatch : List Char → List Char → Bool
  | [], s => s.isEmpty
  | '%' :: ps, s => (s.tails).any (fun t => likeMatch ps t)
  | '_' :: ps, s =>
    match s with
    | [] => false
    | _ :: s => likeMatch ps s
  | p :: ps, s =>
    match s with
    | [] => false
    | c :: s => p.toLower == c.toLower && likeMatch ps s

/-- str LIKE pat for whole strings. -/
def sqlLike (str pat : String) : Bool := likeMatch pat.data str.data

/-- The search pattern built at line 577 of the source: percent, the query
text verbatim (wildcards it contains stay live), percent. -/
def likeWrap (q : String) : String := "%" ++ q ++ "%"

/-- One row of the summary projection returned by search_recipes and
get_all_recipes. -/
structure RecipeSummary where
  id : Nat
  name : String
  description : String
  prep_time : Nat
  cook_time : Nat
  difficulty : String
  favorite : Bool
  deriving DecidableEq, Repr

/-- Projection SELECT r.id, r.name, r.description, r.prep_time, r.cook_time,
r.difficulty, r.favorite. -/
def summaryOf (r : RecipeRow) : RecipeSummary :=
  ⟨r.id, r.name, r.description, r.prep_time, r.cook_time, r.difficulty, r.favorite⟩

/-- Python truthiness of an optional list argument: None and the empty list
are falsy. -/
def truthyList (o : Option (List String)) : Bool :=
  match o with
  | some l => !l.isEmpty
  | none => false

/-- The FROM/JOIN rows of the dynamically built search query: recipes,
joined with the category link and label tables only when a category filter
is present, and with the tag tables only when a tag filter is present. -/
def searchJoinRows (s : Store) (useCat useTag : Bool) :
    List (RecipeRow × Option String × Option String) :=
  s.recipes.flatMap (fun r =>
    (if useCat then (recipeCategoryNames s r.id).map some
     else [none]).flatMap (fun cn =>
      (if useTag then (recipeTagNames s r.id).map some
       else [none]).map (fun tn => (r, cn, tn))))

/-- The WHERE conditions of search_recipes, ANDed; each joined column and
each truthy argument contributes its condition and the others pass. -/
def searchCond (query : Option String) (catList tagList : List String)
    (favorite : Option Bool)
    (x : RecipeRow × Option String × Option String) : Bool :=
  (match x.2.1 with
   | some n => catList.contains n
   | none => true) &&
  (match x.2.2 with
   | some n => tagList.contains n
   | none => true) &&
  (match query with
   | some q =>
     if q == "" then true
     else sqlLike x.1.name (likeWrap q) || sqlLike x.1.description (likeWrap q)
       || sqlLike x.1.instructions (likeWrap q)
   | none => true) &&
  (match favorite with
   | some f => x.1.favorite == f
   | none => true)

/-- def search_recipes(self, query=None, categories=None, tags=None,
favorite=None): dynamically built SELECT DISTINCT over the joined rows with
the ANDed conditions; DISTINCT is modelled by dedup of the projected rows. -/
def search_recipes (s : Store) (query : Option String)
    (categories tags : Option (List String)) (favorite : Option Bool) :
    List RecipeSummary :=
  (((searchJoinRows s (truthyList categories) (truthyList tags)).filter
      (searchCond query (categories.getD []) (tags.getD []) favorite)).map
    (fun x => summaryOf x.1)).dedup

/-- The rowid SQLite assigns to an insert into a table without
AUTOINCREMENT: one more than the largest rowid currently in the table, 1 on
an empty table.  Rowids freed by DELETE are therefore reused. -/
def nextRowId (ids : List Nat) : Nat := ids.foldr max 0 + 1

/-- def create_shopping_list(self, name, notes=''): plain insert returning
the new rowid, which SQLite computes from the rows currently in
shopping_lists (deleted list ids are reused).  next_list_id is a ghost
high-water mark no operation reads; it is maintained so that the id bounds
of WF stay invariant. -/
def create_shopping_list (s : Store) (name nts : String) : Store × Nat :=
  let lid := nextRowId (s.shopping_lists.map ShoppingListRow.id)
  ({ s with
     shopping_lists := s.shopping_lists ++ [⟨lid, name, nts⟩]
     next_list_id := max s.next_list_id (lid + 1) }, lid)

/-- def add_shopping_list_item(self, shopping_list_id, ingredient_id,
quantity, unit, notes=''): plain insert (checked defaults to 0) returning the
new rowid; neither foreign key is checked (enforcement is off). -/
def add_shopping_list_item (s : Store) (lid : Nat) (iid : Option Nat)
    (q : Qty) (u : String) (nts : String) : Store × Nat :=
  let itid := s.next_item_id
  ({ s with
     shopping_list_items :=
       s.shopping_list_items ++ [⟨itid, lid, iid, q, u, false, nts⟩]
     next_item_id := itid + 1 }, itid)

/-- One row of the item join returned inside get_shopping_list. -/
structure ShoppingListItemOut where
  id : Nat
  ingredient_id : Option Nat
  name : String
  quantity : Qty
  unit : String
  checked : Bool
  notes : String
  category : String
  deriving DecidableEq, Repr

/-- The dict returned by get_shopping_list (date_created omitted). -/
structure ShoppingListOut where
  id : Nat
  name : String
  notes : String
  items : List ShoppingListItemOut
  deriving DecidableEq, Repr

/-- Comparison used to model ORDER BY i.category, i.name (ascending). -/
def itemOutLe (a b : ShoppingListItemOut) : Bool :=
  decide (a.category < b.category) ||
    (a.category == b.category && decide (a.name ≤ b.name))

/-- SELECT ... FROM shopping_list_items sli JOIN ingredients i ON
sli.ingredient_id = i.id WHERE sli.shopping_list_id = ? ORDER BY i.category,
i.name: the inner join silently drops items whose ingredient_id is NULL or
matches no ingredient row.  The ORDER BY is modelled as sorting by the
comparison (the sorting algorithm itself is unobservable). -/
def shoppingItemsOf (s : Store) (lid : Nat) : List ShoppingListItemOut :=
  List.insertionSort (fun a b => itemOutLe a b = true)
    ((s.shopping_list_items.filter
        (fun it => it.shopping_list_id == lid)).flatMap (fun it =>
      (s.ingredients.filter (fun i => some i.id == it.ingredient_id)).map (fun i =>
        ⟨it.id, it.ingredient_id, i.name, it.quantity, it.unit, it.checked,
         it.notes, i.category⟩)))

/-- def get_shopping_list(self, shopping_list_id): None when the list row is
absent, else the row with its joined items. -/
def get_shopping_list (s : Store) (lid : Nat) : Option ShoppingListOut :=
  (s.shopping_lists.find? (fun l => l.id == lid)).map (fun l =>
    ⟨l.id, l.name, l.notes, shoppingItemsOf s lid⟩)

/-- def update_shopping_list_item(self, item_id, checked=None, quantity=None,
notes=None): returns False (no write) when every optional argument is None;
else one UPDATE writing exactly the supplied fields on rows WHERE id = ? ,
then returns True whether or not any row matched. -/
def update_shopping_list_item (s : Store) (item_id : Nat)
    (checked : Option Bool) (quantity : Option Qty) (nts : Option String) :
    Store × Bool :=
  if checked.isNone && quantity.isNone && nts.isNone then (s, false)
  else
    ({ s with shopping_list_items := s.shopping_list_items.map (fun it =>
        if it.id = item_id then
          { it with
            checked := checked.getD it.checked
            quantity := quantity.getD it.quantity
            notes := nts.getD it.notes }
        else it) }, true)

/-- def delete_shopping_list(self, shopping_list_id): DELETE FROM
shopping_lists WHERE id = ? , then rowcount > 0, which holds exactly when
some row matched.  The items of the list survive: PRAGMA foreign_keys is
never enabled, so the declared cascade is inert. -/
def delete_shopping_list (s : Store) (lid : Nat) : Store × Bool :=
  ({ s with shopping_lists := s.shopping_lists.filter (fun l => l.id ≠ lid) },
   s.shopping_lists.any (fun l => l.id == lid))

/-- One output row of the GROUP BY query of
generate_shopping_list_from_recipes: ingredient_id, name, SUM(quantity),
unit, category. -/
structure GroupedRow where
  ingredient_id : Nat
  name : String
  total_quantity : Qty
  unit : String
  category : String
  deriving DecidableEq, Repr

/-- Comparison used to model ORDER BY i.category, i.name on grouped rows. -/
def groupedLe (a b : GroupedRow) : Bool :=
  decide (a.category < b.category) ||
    (a.category == b.category && decide (a.name ≤ b.name))

/-- The FROM/JOIN/WHERE part of the aggregation query of
generate_shopping_list_from_recipes: recipe_ingredients rows of the given
recipes, inner-joined with their ingredients row. -/
def joinedRows (s : Store) (rids : List Nat) :
    List (RecipeIngredientRow × IngredientRow) :=
  (s.recipe_ingredients.filter
      (fun ri => rids.contains ri.recipe_id)).flatMap (fun ri =>
    (s.ingredients.filter (fun i => i.id == ri.ingredient_id)).map
      (fun i => (ri, i)))

/-- The GROUP BY ri.ingredient_id, ri.unit keys, one per distinct pair. -/
def groupKeys (s : Store) (rids : List Nat) : List (Nat × String) :=
  ((joinedRows s rids).map (fun x => (x.1.ingredient_id, x.1.unit))).dedup

/-- The output rows of the aggregation query before ordering: per group
key, SUM(quantity) over the group, name / category drawn from a
representative joined row. -/
def aggRowsRaw (s : Store) (rids : List Nat) : List GroupedRow :=
  (groupKeys s rids).filterMap (fun k =>
    ((joinedRows s rids).find? (fun x =>
        x.1.ingredient_id == k.1 && x.1.unit == k.2)).map (fun w =>
      ⟨k.1, w.2.name,
       (((joinedRows s rids).filter (fun x =>
           x.1.ingredient_id == k.1 && x.1.unit == k.2)).map
         (fun x => x.1.quantity)).sum,
       k.2, w.2.category⟩))

/-- The aggregation rows in ORDER BY i.category, i.name order. -/
def aggRows (s : Store) (rids : List Nat) : List GroupedRow :=
  List.insertionSort (fun a b => groupedLe a b = true) (aggRowsRaw s rids)

/-- def generate_shopping_list_from_recipes(self, recipe_ids, name=None):
creates the list (default name built from the current date, which is passed
in here as today), returns at once when recipe_ids is empty, else runs the
aggregation query - join recipe_ingredients with ingredients, keep rows of
the given recipes, GROUP BY (ingredient_id, unit), SUM the quantities - and
inserts one item per group. -/
def generate_shopping_list_from_recipes (s : Store) (rids : List Nat)
    (name : Option String) (today : String) : Store × Nat :=
  let nm := match name with
    | some n => if n == "" then "Shopping list (" ++ today ++ ")" else n
    | none => "Shopping list (" ++ today ++ ")"
  let c := create_shopping_list s nm "Generated from selected recipes"
  if rids.isEmpty then c
  else
    ((aggRows c.1 rids).foldl (fun st row =>
      (add_shopping_list_item st c.2 (some row.ingredient_id)
        row.total_quantity row.unit "").1) c.1, c.2)

/-- A parsed JSON document, as far as the import path inspects it: either a
JSON object carrying the recipe keys, or any other JSON value (array,
string, number, bool, null), on which the .get attribute access raises. -/
inductive JsonValue where
  | obj (d : RecipeData)
  | nonObj
  deriving DecidableEq, Repr

/-- Outcome of import_recipe_from_json. -/
inductive ImportResult where
  /-- json.loads raised JSONDecodeError, caught: the function returns None
  and the store is untouched. -/
  | parseError
  /-- an exception other than JSONDecodeError escaped (AttributeError on a
  non-dict payload, IntegrityError from the insert). -/
  | raised (e : DBError)
  /-- the recipe was inserted under the returned fresh id. -/
  | imported (s2 : Store) (rid : Nat)
  deriving DecidableEq, Repr

/-- def export_recipe_to_json(self, recipe_id): None when the recipe is
absent, else json.dumps of the get_recipe dict.  The JSON text round-trips
the dict exactly, so the serialized form is modelled as the record itself. -/
def recipeToData (r : Recipe) : RecipeData :=
  { id := some r.id
    name := some r.name
    description := r.description
    instructions := r.instructions
    prep_time := r.prep_time
    cook_time := r.cook_time
    servings := r.servings
    difficulty := r.difficulty
    source := r.source
    notes := r.notes
    favorite := r.favorite
    categories := some r.categories
    tags := some r.tags
    ingredients := some (r.ingredients.map (fun i =>
      { name := some i.name
        quantity := i.quantity
        unit := i.unit
        notes := i.notes
        category := i.category })) }

/-- def export_recipe_to_json(self, recipe_id): see recipeToData. -/
def export_recipe_to_json (s : Store) (rid : Nat) : Option JsonValue :=
  (get_recipe s rid).map (fun r => .obj (recipeToData r))

/-- def import_recipe_from_json(self, json_data): json.loads (a None input
models undecodable text, whose JSONDecodeError is caught and turned into a
None result), then add_recipe on the parsed value; .get on a non-dict value
raises AttributeError, and integrity errors from add_recipe also escape
uncaught. -/
def import_recipe_from_json (s : Store) (j : Option JsonValue) : ImportResult :=
  match j with
  | none => .parseError
  | some .nonObj => .raised .attributeError
  | some (.obj d) =>
    match add_recipe s d with
    | .error e => .raised e
    | .ok p => .imported p.1 p.2

/-! ### Reachable-store invariant

Properties every store reachable through the repository operations from a
fresh database enjoys; theorems about arbitrary stores take them as
hypotheses.  Rowids are unique per table and below the rowid counter, unique
columns are unique, composite primary keys are unique, and recipe_ingredients
rows reference live ingredient rows (nothing ever deletes an ingredient). -/

/-- Well-formedness of a store; see section header. -/
structure WF (s : Store) : Prop where
  rec_ids : (s.recipes.map RecipeRow.id).Nodup
  rec_lt : ∀ r ∈ s.recipes, r.id < s.next_recipe_id
  cat_ids : (s.categories.map LabelRow.id).Nodup
  cat_names : (s.categories.map LabelRow.name).Nodup
  cat_lt : ∀ c ∈ s.categories, c.id < s.next_category_id
  tag_ids : (s.tags.map LabelRow.id).Nodup
  tag_names : (s.tags.map LabelRow.name).Nodup
  tag_lt : ∀ t ∈ s.tags, t.id < s.next_tag_id
  ing_ids : (s.ingredients.map IngredientRow.id).Nodup
  ing_names : (s.ingredients.map IngredientRow.name).Nodup
  ing_lt : ∀ i ∈ s.ingredients, i.id < s.next_ingredient_id
  rc_pairs : (s.recipe_categories.map (fun l => (l.recipe_id, l.label_id))).Nodup
  rc_lt : ∀ l ∈ s.recipe_categories, l.label_id < s.next_category_id
  rt_pairs : (s.recipe_tags.map (fun l => (l.recipe_id, l.label_id))).Nodup
  rt_lt : ∀ l ∈ s.recipe_tags, l.label_id < s.next_tag_id
  ri_pairs : (s.recipe_ingredients.map (fun l => (l.recipe_id, l.ingredient_id))).Nodup
  ri_refs : ∀ l ∈ s.recipe_ingredients, ∃ i ∈ s.ingredients, i.id = l.ingredient_id
  ri_lt : ∀ l ∈ s.recipe_ingredients, l.ingredient_id < s.next_ingredient_id
  sl_ids : (s.shopping_lists.map ShoppingListRow.id).Nodup
  sl_lt : ∀ l ∈ s.shopping_lists, l.id < s.next_list_id
  sli_ids : (s.shopping_list_items.map ShoppingListItemRow.id).Nodup
  sli_lt : ∀ it ∈ s.shopping_list_items, it.shopping_list_id < s.next_list_id

/-! ### General list helpers -/

/-- Filtering a list whose keys are unique for the key of a member returns
exactly that member. -/
theorem filter_key_singleton {α : Type _} (key : α → Nat) :
    ∀ (tbl : List α), (tbl.map key).Nodup → ∀ i ∈ tbl,
      tbl.filter (fun x => key x == key i) = [i] := by
  intro tbl
  induction tbl with
  | nil => intro _ i hi; exact absurd hi (List.not_mem_nil i)
  | cons a rest ih =>
    intro hnd i hi
    simp only [List.map_cons, List.nodup_cons, List.mem_map] at hnd
    rcases List.mem_cons.1 hi with rfl | hmem
    · have : rest.filter (fun x => key x == key i) = [] := by
        apply List.filter_eq_nil_iff.2
        intro x hx
        simp only [beq_iff_eq]
        intro hk
        exact hnd.1 ⟨x, hx, hk⟩
      simp [List.filter_cons, this]
    · have hne : key a ≠ key i := by
        intro hk
        exact hnd.1 ⟨i, hmem, hk.symm⟩
      have := ih hnd.2 i hmem
      simp [List.filter_cons, hne, this]

/-- Filtering for a key that no element carries gives the empty list. -/
theorem filter_key_nil {α : Type _} (key : α → Nat) (tbl : List α) (v : Nat)
    (h : ∀ x ∈ tbl, key x ≠ v) : tbl.filter (fun x => key x == v) = [] := by
  apply List.filter_eq_nil_iff.2
  intro x hx
  simp only [beq_iff_eq]
  exact h x hx

/-! ### Frame lemmas for the shared insert loops -/

/-- addCategoriesLoop only touches categories, next_category_id and
recipe_categories. -/
theorem addCategoriesLoop_frame (rid : Nat) (names : List String) :
    ∀ s : Store, (addCategoriesLoop s rid names).recipes = s.recipes ∧
      (addCategoriesLoop s rid names).tags = s.tags ∧
      (addCategoriesLoop s rid names).ingredients = s.ingredients ∧
      (addCategoriesLoop s rid names).recipe_tags = s.recipe_tags ∧
      (addCategoriesLoop s rid names).recipe_ingredients = s.recipe_ingredients ∧
      (addCategoriesLoop s rid names).shopping_lists = s.shopping_lists ∧
      (addCategoriesLoop s rid names).shopping_list_items = s.shopping_list_items ∧
      (addCategoriesLoop s rid names).next_recipe_id = s.next_recipe_id ∧
      (addCategoriesLoop s rid names).next_tag_id = s.next_tag_id ∧
      (addCategoriesLoop s rid names).next_ingredient_id = s.next_ingredient_id ∧
      (addCategoriesLoop s rid names).next_list_id = s.next_list_id ∧
      (addCategoriesLoop s rid names).next_item_id = s.next_item_id := by
  induction names with
  | nil => intro s; simp [addCategoriesLoop]
  | cons nm rest ih =>
    intro s
    rw [addCategoriesLoop]
    exact ih _

/-- addTagsLoop only touches tags, next_tag_id and recipe_tags. -/
theorem addTagsLoop_frame (rid : Nat) (names : List String) :
    ∀ s : Store, (addTagsLoop s rid names).recipes = s.recipes ∧
      (addTagsLoop s rid names).categories = s.categories ∧
      (addTagsLoop s rid names).ingredients = s.ingredients ∧
      (addTagsLoop s rid names).recipe_categories = s.recipe_categories ∧
      (addTagsLoop s rid names).recipe_ingredients = s.recipe_ingredients ∧
      (addTagsLoop s rid names).shopping_lists = s.shopping_lists ∧
      (addTagsLoop s rid names).shopping_list_items = s.shopping_list_items ∧
      (addTagsLoop s rid names).next_recipe_id = s.next_recipe_id ∧
      (addTagsLoop s rid names).next_category_id = s.next_category_id ∧
      (addTagsLoop s rid names).next_ingredient_id = s.next_ingredient_id ∧
      (addTagsLoop s rid names).next_list_id = s.next_list_id ∧
      (addTagsLoop s rid names).next_item_id = s.next_item_id := by
  induction names with
  | nil => intro s; simp [addTagsLoop]
  | cons nm rest ih =>
    intro s
    rw [addTagsLoop]
    exact ih _

/-- addIngredientsLoop, when it succeeds, only touches ingredients,
next_ingredient_id and recipe_ingredients. -/
theorem addIngredientsLoop_frame (rid : Nat) (ings : List IngredientData) :
    ∀ s s2 : Store, addIngredientsLoop s rid ings = .ok s2 →
      s2.recipes = s.recipes ∧
      s2.categories = s.categories ∧
      s2.tags = s.tags ∧
      s2.recipe_categories = s.recipe_categories ∧
      s2.recipe_tags = s.recipe_tags ∧
      s2.shopping_lists = s.shopping_lists ∧
      s2.shopping_list_items = s.shopping_list_items ∧
      s2.next_recipe_id = s.next_recipe_id ∧
      s2.next_category_id = s.next_category_id ∧
      s2.next_tag_id = s.next_tag_id ∧
      s2.next_list_id = s.next_list_id ∧
      s2.next_item_id = s.next_item_id := by
  induction ings with
  | nil =>
    intro s s2 h
    simp only [addIngredientsLoop, Except.ok.injEq] at h
    subst h
    exact ⟨rfl, rfl, rfl, rfl, rfl, rfl, rfl, rfl, rfl, rfl, rfl, rfl⟩
  | cons ing rest ih =>
    intro s s2 h
    obtain ⟨nmo, q, u, nts, cat⟩ := ing
    cases nmo with
    | none => simp [addIngredientsLoop] at h
    | some nm =>
      simp only [addIngredientsLoop] at h
      split at h
      · simp at h
      · have := ih _ s2 h
        simpa using this

/-- catsStageAdd only touches categories, next_category_id and
recipe_categories. -/
theorem catsStageAdd_frame (rid : Nat) (co : Option (List String)) (u : Store) :
    (catsStageAdd u rid co).recipes = u.recipes ∧
    (catsStageAdd u rid co).tags = u.tags ∧
    (catsStageAdd u rid co).ingredients = u.ingredients ∧
    (catsStageAdd u rid co).recipe_tags = u.recipe_tags ∧
    (catsStageAdd u rid co).recipe_ingredients = u.recipe_ingredients ∧
    (catsStageAdd u rid co).shopping_lists = u.shopping_lists ∧
    (catsStageAdd u rid co).shopping_list_items = u.shopping_list_items ∧
    (catsStageAdd u rid co).next_recipe_id = u.next_recipe_id ∧
    (catsStageAdd u rid co).next_tag_id = u.next_tag_id ∧
    (catsStageAdd u rid co).next_ingredient_id = u.next_ingredient_id ∧
    (catsStageAdd u rid co).next_list_id = u.next_list_id ∧
    (catsStageAdd u rid co).next_item_id = u.next_item_id := by
  cases co with
  | none => exact ⟨rfl, rfl, rfl, rfl, rfl, rfl, rfl, rfl, rfl, rfl, rfl, rfl⟩
  | some cats =>
    by_cases hc : cats.isEmpty
    · simp [catsStageAdd, hc]
    · simpa [catsStageAdd, hc] using addCategoriesLoop_frame rid cats u

/-- catsStageUpd only touches categories, next_category_id and
recipe_categories. -/
theorem catsStageUpd_frame (rid : Nat) (co : Option (List String)) (u : Store) :
    (catsStageUpd u rid co).recipes = u.recipes ∧
    (catsStageUpd u rid co).tags = u.tags ∧
    (catsStageUpd u rid co).ingredients = u.ingredients ∧
    (catsStageUpd u rid co).recipe_tags = u.recipe_tags ∧
    (catsStageUpd u rid co).recipe_ingredients = u.recipe_ingredients ∧
    (catsStageUpd u rid co).shopping_lists = u.shopping_lists ∧
    (catsStageUpd u rid co).shopping_list_items = u.shopping_list_items ∧
    (catsStageUpd u rid co).next_recipe_id = u.next_recipe_id ∧
    (catsStageUpd u rid co).next_tag_id = u.next_tag_id ∧
    (catsStageUpd u rid co).next_ingredient_id = u.next_ingredient_id ∧
    (catsStageUpd u rid co).next_list_id = u.next_list_id ∧
    (catsStageUpd u rid co).next_item_id = u.next_item_id := by
  cases co with
  | none => exact ⟨rfl, rfl, rfl, rfl, rfl, rfl, rfl, rfl, rfl, rfl, rfl, rfl⟩
  | some cats =>
    simpa [catsStageUpd] using addCategoriesLoop_frame rid cats
      { u with recipe_categories :=
        u.recipe_categories.filter (fun l => l.recipe_id ≠ rid) }

/-- tagsStageAdd only touches tags, next_tag_id and recipe_tags. -/
theorem tagsStageAdd_frame (rid : Nat) (to0 : Option (List String)) (u : Store) :
    (tagsStageAdd u rid to0).recipes = u.recipes ∧
    (tagsStageAdd u rid to0).categories = u.categories ∧
    (tagsStageAdd u rid to0).ingredients = u.ingredients ∧
    (tagsStageAdd u rid to0).recipe_categories = u.recipe_categories ∧
    (tagsStageAdd u rid to0).recipe_ingredients = u.recipe_ingredients ∧
    (tagsStageAdd u rid to0).shopping_lists = u.shopping_lists ∧
    (tagsStageAdd u rid to0).shopping_list_items = u.shopping_list_items ∧
    (tagsStageAdd u rid to0).next_recipe_id = u.next_recipe_id ∧
    (tagsStageAdd u rid to0).next_category_id = u.next_category_id ∧
    (tagsStageAdd u rid to0).next_ingredient_id = u.next_ingredient_id ∧
    (tagsStageAdd u rid to0).next_list_id = u.next_list_id ∧
    (tagsStageAdd u rid to0).next_item_id = u.next_item_id := by
  cases to0 with
  | none => exact ⟨rfl, rfl, rfl, rfl, rfl, rfl, rfl, rfl, rfl, rfl, rfl, rfl⟩
  | some ts =>
    by_cases hc : ts.isEmpty
    · simp [tagsStageAdd, hc]
    · simpa [tagsStageAdd, hc] using addTagsLoop_frame rid ts u

/-- tagsStageUpd only touches tags, next_tag_id and recipe_tags. -/
theorem tagsStageUpd_frame (rid : Nat) (to0 : Option (List String)) (u : Store) :
    (tagsStageUpd u rid to0).recipes = u.recipes ∧
    (tagsStageUpd u rid to0).categories = u.categories ∧
    (tagsStageUpd u rid to0).ingredients = u.ingredients ∧
    (tagsStageUpd u rid to0).recipe_categories = u.recipe_categories ∧
    (tagsStageUpd u rid to0).recipe_ingredients = u.recipe_ingredients ∧
    (tagsStageUpd u rid to0).shopping_lists = u.shopping_lists ∧
    (tagsStageUpd u rid to0).shopping_list_items = u.shopping_list_items ∧
    (tagsStageUpd u rid to0).next_recipe_id = u.next_recipe_id ∧
    (tagsStageUpd u rid to0).next_category_id = u.next_category_id ∧
    (tagsStageUpd u rid to0).next_ingredient_id = u.next_ingredient_id ∧
    (tagsStageUpd u rid to0).next_list_id = u.next_list_id ∧
    (tagsStageUpd u rid to0).next_item_id = u.next_item_id := by
  cases to0 with
  | none => exact ⟨rfl, rfl, rfl, rfl, rfl, rfl, rfl, rfl, rfl, rfl, rfl, rfl⟩
  | some ts =>
    simpa [tagsStageUpd] using addTagsLoop_frame rid ts
      { u with recipe_tags :=
        u.recipe_tags.filter (fun l => l.recipe_id ≠ rid) }

/-- ingsStageAdd, when it succeeds, only touches ingredients,
next_ingredient_id and recipe_ingredients. -/
theorem ingsStageAdd_frame (rid : Nat) (io : Option (List IngredientData))
    (u s2 : Store) (h : ingsStageAdd u rid io = .ok s2) :
    s2.recipes = u.recipes ∧
    s2.categories = u.categories ∧
    s2.tags = u.tags ∧
    s2.recipe_categories = u.recipe_categories ∧
    s2.recipe_tags = u.recipe_tags ∧
    s2.shopping_lists = u.shopping_lists ∧
    s2.shopping_list_items = u.shopping_list_items ∧
    s2.next_recipe_id = u.next_recipe_id ∧
    s2.next_category_id = u.next_category_id ∧
    s2.next_tag_id = u.next_tag_id ∧
    s2.next_list_id = u.next_list_id ∧
    s2.next_item_id = u.next_item_id := by
  cases io with
  | none =>
    simp only [ingsStageAdd, Except.ok.injEq] at h
    subst h
    exact ⟨rfl, rfl, rfl, rfl, rfl, rfl, rfl, rfl, rfl, rfl, rfl, rfl⟩
  | some ings =>
    by_cases hc : ings.isEmpty
    · simp only [ingsStageAdd, hc, if_pos, Except.ok.injEq] at h
      subst h
      exact ⟨rfl, rfl, rfl, rfl, rfl, rfl, rfl, rfl, rfl, rfl, rfl, rfl⟩
    · simp only [ingsStageAdd, hc, Bool.false_eq_true, if_false] at h
      exact addIngredientsLoop_frame rid ings u s2 h

/-- ingsStageUpd, when it succeeds, only touches ingredients,
next_ingredient_id and recipe_ingredients. -/
theorem ingsStageUpd_frame (rid : Nat) (io : Option (List IngredientData))
    (u s2 : Store) (h : ingsStageUpd u rid io = .ok s2) :
    s2.recipes = u.recipes ∧
    s2.categories = u.categories ∧
    s2.tags = u.tags ∧
    s2.recipe_categories = u.recipe_categories ∧
    s2.recipe_tags = u.recipe_tags ∧
    s2.shopping_lists = u.shopping_lists ∧
    s2.shopping_list_items = u.shopping_list_items ∧
    s2.next_recipe_id = u.next_recipe_id ∧
    s2.next_category_id = u.next_category_id ∧
    s2.next_tag_id = u.next_tag_id ∧
    s2.next_list_id = u.next_list_id ∧
    s2.next_item_id = u.next_item_id := by
  cases io with
  | none =>
    simp only [ingsStageUpd, Except.ok.injEq] at h
    subst h
    exact ⟨rfl, rfl, rfl, rfl, rfl, rfl, rfl, rfl, rfl, rfl, rfl, rfl⟩
  | some ings =>
    simp only [ingsStageUpd] at h
    simpa using addIngredientsLoop_frame rid ings _ s2 h

/-- Anatomy of a successful add_recipe: the returned id is the fresh recipe
rowid, the recipes table gained exactly the new row at its end, the recipe
counter stepped, and the shopping tables are untouched. -/
theorem add_recipe_ok_anatomy (s : Store) (d : RecipeData) (nm : String)
    (hnm : d.name = some nm) (s2 : Store) (rid : Nat)
    (h : add_recipe s d = .ok (s2, rid)) :
    rid = s.next_recipe_id ∧
    s2.recipes = s.recipes ++ [newRecipeRow s nm d] ∧
    s2.next_recipe_id = s.next_recipe_id + 1 ∧
    s2.shopping_lists = s.shopping_lists ∧
    s2.shopping_list_items = s.shopping_list_items := by
  unfold add_recipe at h
  rw [hnm] at h
  simp only at h
  rcases hing : ingsStageAdd
      (tagsStageAdd
        (catsStageAdd
          { s with
            recipes := s.recipes ++ [newRecipeRow s nm d]
            next_recipe_id := s.next_recipe_id + 1 }
          s.next_recipe_id d.categories)
        s.next_recipe_id d.tags)
      s.next_recipe_id d.ingredients with e | s4
  · rw [hing] at h
    simp [Except.map] at h
  · rw [hing] at h
    simp only [Except.map, Except.ok.injEq, Prod.mk.injEq] at h
    obtain ⟨h1, h2⟩ := h
    subst h1
    have hi := ingsStageAdd_frame _ _ _ _ hing
    have ht := tagsStageAdd_frame s.next_recipe_id d.tags
      (catsStageAdd
        { s with
          recipes := s.recipes ++ [newRecipeRow s nm d]
          next_recipe_id := s.next_recipe_id + 1 }
        s.next_recipe_id d.categories)
    have hcf := catsStageAdd_frame s.next_recipe_id d.categories
      { s with
        recipes := s.recipes ++ [newRecipeRow s nm d]
        next_recipe_id := s.next_recipe_id + 1 }
    refine ⟨h2.symm, ?_, ?_, ?_, ?_⟩
    · rw [hi.1, ht.1, hcf.1]
    · rw [hi.2.2.2.2.2.2.2.1, ht.2.2.2.2.2.2.2.1, hcf.2.2.2.2.2.2.2.1]
    · rw [hi.2.2.2.2.2.1, ht.2.2.2.2.2.1, hcf.2.2.2.2.2.1]
    · rw [hi.2.2.2.2.2.2.1, ht.2.2.2.2.2.2.1, hcf.2.2.2.2.2.2.1]

/-- Anatomy of a successful update_recipe that returned True: the recipes
table is the id-targeted scalar overwrite of the old one, the shopping
tables are untouched, and the id was present. -/
theorem update_recipe_ok_anatomy (s : Store) (rid : Nat) (d : RecipeData)
    (nm : String) (hnm : d.name = some nm) (s2 : Store)
    (h : update_recipe s rid d = .ok (s2, true)) :
    s2.recipes = scalarOverwrite s rid nm d ∧
    s2.shopping_lists = s.shopping_lists ∧
    s2.shopping_list_items = s.shopping_list_items ∧
    s.recipes.any (fun r => r.id == rid) = true := by
  unfold update_recipe at h
  by_cases hex : s.recipes.any (fun r => r.id == rid) = true
  · rw [if_pos hex, hnm] at h
    simp only at h
    rcases hing : ingsStageUpd
        (tagsStageUpd
          (catsStageUpd { s with recipes := scalarOverwrite s rid nm d }
            rid d.categories)
          rid d.tags)
        rid d.ingredients with e | s4
    · rw [hing] at h
      simp [Except.map] at h
    · rw [hing] at h
      simp only [Except.map, Except.ok.injEq, Prod.mk.injEq] at h
      obtain ⟨h1, _⟩ := h
      subst h1
      have hi := ingsStageUpd_frame _ _ _ _ hing
      have ht := tagsStageUpd_frame rid d.tags
        (catsStageUpd { s with recipes := scalarOverwrite s rid nm d }
          rid d.categories)
      have hcf := catsStageUpd_frame rid d.categories
        { s with recipes := scalarOverwrite s rid nm d }
      refine ⟨?_, ?_, ?_, hex⟩
      · rw [hi.1, ht.1, hcf.1]
      · rw [hi.2.2.2.2.2.1, ht.2.2.2.2.2.1, hcf.2.2.2.2.2.1]
      · rw [hi.2.2.2.2.2.2.1, ht.2.2.2.2.2.2.1, hcf.2.2.2.2.2.2.1]
  · rw [if_neg hex] at h
    simp only [Except.ok.injEq, Prod.mk.injEq] at h
    exact absurd h.2 (by simp)

/-- Scanning an id-keyed update image: the first hit of the mapped list is
the updated first hit of the original, provided the update keeps ids. -/
theorem find?_update_list (l : List RecipeRow) (rid : Nat)
    (g : RecipeRow → RecipeRow) (hg : ∀ r, (g r).id = r.id) :
    (l.map (fun r => if r.id = rid then g r else r)).find?
        (fun r => r.id == rid) =
      (l.find? (fun r => r.id == rid)).map g := by
  induction l with
  | nil => simp
  | cons a rest ih =>
    simp only [List.map_cons, List.find?_cons]
    by_cases ha : a.id = rid
    · have h1 : (a.id == rid) = true := by simp [ha]
      have h2 : ((g a).id == rid) = true := by simp [hg, ha]
      rw [if_pos ha, h2, h1]
      rfl
    · have h1 : (a.id == rid) = false := by simp [ha]
      rw [if_neg ha, h1]
      exact ih

/-- A list whose keys all lie below the bound has no hit at the bound. -/
theorem find?_eq_none_of_lt {α : Type _} (key : α → Nat) (l : List α) (v : Nat)
    (h : ∀ x ∈ l, key x < v) : l.find? (fun x => key x == v) = none := by
  apply List.find?_eq_none.2
  intro x hx
  simp only [beq_iff_eq]
  exact Nat.ne_of_lt (h x hx)

/-! ### Claim C1

The spec (and the comment at line 525 of the source) promise that deleting a
recipe removes every ingredient / category / tag link row and that deleting
a shopping list removes every item row, through the declared ON DELETE
CASCADE foreign keys.  sqlite3 keeps foreign-key enforcement off because the
code never runs PRAGMA foreign_keys = ON, so no cascade ever fires: the
claim describes the documented intent, the code does less. -/

/-- Claim C1, failing input: a fresh store, one recipe (id 1) added with one
category, one tag and one ingredient; delete_recipe 1 returns True and
get_recipe 1 then returns None, yet the three link tables still hold one row
each.  Likewise one shopping list (id 1) with one item; delete_shopping_list
1 returns True and empties shopping_lists, yet the item row survives. -/
theorem delete_cascades_never_fire :
    (add_recipe freshStore
      { name := some "Cake"
        categories := some ["Dinner"]
        tags := some ["Quick"]
        ingredients := some [{ name := some "Flour", quantity := 200, unit := "g" }] }).map
      (fun p =>
        (p.2, (delete_recipe p.1 p.2).2, get_recipe (delete_recipe p.1 p.2).1 p.2,
          (delete_recipe p.1 p.2).1.recipe_categories.length,
          (delete_recipe p.1 p.2).1.recipe_tags.length,
          (delete_recipe p.1 p.2).1.recipe_ingredients.length))
      = .ok (1, true, none, 1, 1, 1) ∧
    ((delete_shopping_list
        (add_shopping_list_item (create_shopping_list freshStore "Weekly" "").1
          (create_shopping_list freshStore "Weekly" "").2 (some 7) 2 "kg" "").1
        (create_shopping_list freshStore "Weekly" "").2).2,
      (delete_shopping_list
        (add_shopping_list_item (create_shopping_list freshStore "Weekly" "").1
          (create_shopping_list freshStore "Weekly" "").2 (some 7) 2 "kg" "").1
        (create_shopping_list freshStore "Weekly" "").2).1.shopping_lists,
      (delete_shopping_list
        (add_shopping_list_item (create_shopping_list freshStore "Weekly" "").1
          (create_shopping_list freshStore "Weekly" "").2 (some 7) 2 "kg" "").1
        (create_shopping_list freshStore "Weekly" "").2).1.shopping_list_items.length)
      = (true, [], 1) := by
  exact ⟨rfl, rfl⟩

/-! ### Claim C8 -/

/-- Claim C8, counterexample: add_recipe accepts the empty-string name (only
NULL is rejected, by the NOT NULL column), so right after one repository
operation a reachable recipe has a name that is empty - and hence empty
after trimming - falsifying the claimed invariant; its instructions default
to the empty string. -/
theorem blank_name_recipe_reachable_cex :
    (add_recipe freshStore { name := some "" }).map
      (fun p => (get_recipe p.1 p.2).map (fun r => (r.name, r.instructions)))
      = .ok (some ("", "")) := by
  exact rfl

/-- Claim C8, amended: every recipe stored through add_recipe or
update_recipe has a present (non-NULL) name - exactly the supplied string,
with no non-emptiness or trimming check anywhere in the repository - and
instructions present as a string (the supplied value, defaulting to empty).
-/
theorem stored_recipe_name_is_supplied_string (s : Store) (d : RecipeData)
    (nm : String) (hnm : d.name = some nm)
    (hb : ∀ r ∈ s.recipes, r.id < s.next_recipe_id) :
    (∀ s2 rid, add_recipe s d = .ok (s2, rid) →
      (get_recipe s2 rid).map (fun r => (r.name, r.instructions))
        = some (nm, d.instructions)) ∧
    (∀ s2 rid, update_recipe s rid d = .ok (s2, true) →
      (get_recipe s2 rid).map (fun r => (r.name, r.instructions))
        = some (nm, d.instructions)) := by
  constructor
  · intro s2 rid h
    obtain ⟨hrid, hrec, -, -, -⟩ := add_recipe_ok_anatomy s d nm hnm s2 rid h
    subst hrid
    rw [get_recipe, hrec, List.find?_append,
      find?_eq_none_of_lt RecipeRow.id s.recipes s.next_recipe_id hb]
    simp [newRecipeRow]
  · intro s2 rid h
    obtain ⟨hrec, -, -, hex⟩ := update_recipe_ok_anatomy s rid d nm hnm s2 h
    rw [get_recipe, hrec, scalarOverwrite,
      find?_update_list s.recipes rid (updatedRecipeRow nm d) (fun r => rfl)]
    obtain ⟨r0, hr0m, hr0⟩ := List.any_eq_true.1 hex
    rcases hfind : s.recipes.find? (fun r => r.id == rid) with _ | r1
    · exact absurd hr0 (by simpa using List.find?_eq_none.1 hfind r0 hr0m)
    · rw [hfind]
      simp [updatedRecipeRow]

/-- Claim C8, amended, witness: on a fresh store both branches run at the
blank name, which is stored verbatim. -/
theorem stored_recipe_name_witness :
    (({ name := some " " } : RecipeData).name = some " ") ∧
    (∀ r ∈ freshStore.recipes, r.id < freshStore.next_recipe_id) ∧
    (∀ s2 rid, add_recipe freshStore { name := some " " } = .ok (s2, rid) →
      (get_recipe s2 rid).map (fun r => (r.name, r.instructions))
        = some (" ", "")) :=
  ⟨rfl, by decide,
    (stored_recipe_name_is_supplied_string freshStore { name := some " " } " "
      rfl (by decide)).1⟩

/-! ### Claim C7 -/

/-- Claim C7: update_shopping_list_item with every optional field None
returns False and leaves the store untouched; with at least one field
supplied it returns True and rewrites exactly the supplied fields of the
rows carrying the id, keeping every other row. -/
theorem update_shopping_list_item_partial_update (s : Store) (iid : Nat)
    (c : Option Bool) (q : Option Qty) (n : Option String) :
    (c = none → q = none → n = none →
      update_shopping_list_item s iid c q n = (s, false)) ∧
    ((c.isSome || q.isSome || n.isSome) = true →
      (update_shopping_list_item s iid c q n).2 = true ∧
      ∀ it ∈ s.shopping_list_items,
        (it.id ≠ iid →
          it ∈ (update_shopping_list_item s iid c q n).1.shopping_list_items) ∧
        (it.id = iid →
          ({ it with
              checked := c.getD it.checked
              quantity := q.getD it.quantity
              notes := n.getD it.notes } : ShoppingListItemRow)
            ∈ (update_shopping_list_item s iid c q n).1.shopping_list_items)) := by
  constructor
  · intro hc hq hn
    subst hc; subst hq; subst hn
    simp [update_shopping_list_item]
  · intro hsome
    have hcond : (c.isNone && q.isNone && n.isNone) = false := by
      rcases c with _ | cv
      · rcases q with _ | qv
        · rcases n with _ | nv
          · simp at hsome
          · simp
        · simp
      · simp
    rw [update_shopping_list_item, hcond]
    simp only [Bool.false_eq_true, if_false]
    refine ⟨by trivial, ?_⟩
    intro it hit
    refine ⟨fun hne => List.mem_map.2 ⟨it, hit, by rw [if_neg hne]⟩,
      fun heq => List.mem_map.2 ⟨it, hit, by rw [if_pos heq]⟩⟩

/-- Claim C7, witness: both branches exercised on the fresh store. -/
theorem update_shopping_list_item_partial_update_witness :
    update_shopping_list_item freshStore 5 none none none = (freshStore, false) ∧
    (update_shopping_list_item freshStore 5 (some true) none none).2 = true :=
  ⟨(update_shopping_list_item_partial_update freshStore 5 none none none).1
      rfl rfl rfl,
    ((update_shopping_list_item_partial_update freshStore 5
        (some true) none none).2 (by decide)).1⟩

/-! ### Claim C10 -/

/-- Claim C10: update_shopping_list_item never checks that the item exists -
with at least one field supplied it returns True for every id, and when no
item carries the id the store is completely unchanged. -/
theorem update_item_returns_true_without_existence_check (s : Store)
    (iid : Nat) (c : Option Bool) (q : Option Qty) (n : Option String)
    (hsome : (c.isSome || q.isSome || n.isSome) = true) :
    (update_shopping_list_item s iid c q n).2 = true ∧
    ((∀ it ∈ s.shopping_list_items, it.id ≠ iid) →
      (update_shopping_list_item s iid c q n).1 = s) := by
  have hcond : (c.isNone && q.isNone && n.isNone) = false := by
    rcases c with _ | cv
    · rcases q with _ | qv
      · rcases n with _ | nv
        · simp at hsome
        · simp
      · simp
    · simp
  rw [update_shopping_list_item, hcond]
  simp only [Bool.false_eq_true, if_false]
  refine ⟨by trivial, ?_⟩
  intro habs
  have hmap : (s.shopping_list_items.map (fun it =>
      if it.id = iid then
        ({ it with
            checked := c.getD it.checked
            quantity := q.getD it.quantity
            notes := n.getD it.notes } : ShoppingListItemRow)
      else it)) = s.shopping_list_items := by
    conv_rhs => rw [← List.map_id s.shopping_list_items]
    apply List.map_congr_left
    intro a ha
    rw [if_neg (habs a ha)]
    rfl
  simp only [hmap]

/-- Claim C10, witness: id 99 names no item of the fresh store, one field is
supplied, the call reports True and changes nothing. -/
theorem update_item_no_existence_check_witness :
    ((some true : Option Bool).isSome || (none : Option Qty).isSome ||
      (none : Option String).isSome) = true ∧
    (update_shopping_list_item freshStore 99 (some true) none none).2 = true ∧
    (update_shopping_list_item freshStore 99 (some true) none none).1
      = freshStore :=
  ⟨rfl,
    (update_item_returns_true_without_existence_check freshStore 99
      (some true) none none rfl).1,
    (update_item_returns_true_without_existence_check freshStore 99
      (some true) none none rfl).2 (by decide)⟩

/-! ### Claim C9 -/

/-- Claim C9: the items collection returned by get_shopping_list contains
exactly those item rows of the list whose ingredient_id is a live reference
into the ingredients table; rows with a NULL or dangling ingredient_id are
silently dropped by the inner join although they still belong to the list.
Stated over any store with unique item rowids. -/
theorem get_shopping_list_joins_out_dead_items (s : Store)
    (hids : (s.shopping_list_items.map ShoppingListItemRow.id).Nodup)
    (lid : Nat) (sl : ShoppingListOut)
    (h : get_shopping_list s lid = some sl) :
    (∀ o ∈ sl.items, ∃ it ∈ s.shopping_list_items,
      it.shopping_list_id = lid ∧ it.id = o.id ∧
      ∃ iid, it.ingredient_id = some iid ∧ ∃ i ∈ s.ingredients, i.id = iid) ∧
    (∀ it ∈ s.shopping_list_items, it.shopping_list_id = lid →
      ((∃ iid, it.ingredient_id = some iid ∧ ∃ i ∈ s.ingredients, i.id = iid) ↔
        ∃ o ∈ sl.items, o.id = it.id)) := by
  have hitems : sl.items = shoppingItemsOf s lid := by
    rw [get_shopping_list] at h
    rcases hf : s.shopping_lists.find? (fun l => l.id == lid) with _ | l0
    · rw [hf] at h; simp at h
    · rw [hf] at h
      simp only [Option.map_some', Option.some.injEq] at h
      rw [← h]
  have hmem : ∀ o : ShoppingListItemOut, o ∈ sl.items ↔
      ∃ it ∈ s.shopping_list_items, (it.shopping_list_id == lid) = true ∧
        ∃ i ∈ s.ingredients, (some i.id == it.ingredient_id) = true ∧
          o = ⟨it.id, it.ingredient_id, i.name, it.quantity, it.unit,
            it.checked, it.notes, i.category⟩ := by
    intro o
    rw [hitems, shoppingItemsOf, List.mem_insertionSort, List.mem_flatMap]
    constructor
    · rintro ⟨it, hit, ho⟩
      rw [List.mem_filter] at hit
      rw [List.mem_map] at ho
      obtain ⟨i, hi, rfl⟩ := ho
      rw [List.mem_filter] at hi
      exact ⟨it, hit.1, hit.2, i, hi.1, hi.2, rfl⟩
    · rintro ⟨it, hit, hcond, i, hi, hicond, rfl⟩
      refine ⟨it, List.mem_filter.2 ⟨hit, hcond⟩, List.mem_map.2
        ⟨i, List.mem_filter.2 ⟨hi, hicond⟩, rfl⟩⟩
  constructor
  · intro o ho
    obtain ⟨it, hit, hcond, i, hi, hicond, rfl⟩ := (hmem o).1 ho
    exact ⟨it, hit, eq_of_beq hcond, rfl, i.id, (eq_of_beq hicond).symm, i, hi, rfl⟩
  · intro it hit hlid
    constructor
    · rintro ⟨iid, hiid, i, hi, rfl⟩
      refine ⟨⟨it.id, it.ingredient_id, i.name, it.quantity, it.unit,
        it.checked, it.notes, i.category⟩, ?_, rfl⟩
      exact (hmem _).2 ⟨it, hit, by simp [hlid], i, hi, by simp [hiid], rfl⟩
    · rintro ⟨o, ho, hoid⟩
      obtain ⟨it2, hit2, hcond2, i, hi, hicond, rfl⟩ := (hmem o).1 ho
      have heq2 : it2 = it := List.inj_on_of_nodup_map hids hit2 hit hoid
      subst heq2
      exact ⟨i.id, (eq_of_beq hicond).symm, i, hi, rfl⟩

/-- Concrete store exercising the item join of get_shopping_list: one list
(id 1) with a live item (id 1, ingredient 1), a NULL-reference item (id 2)
and a dangling-reference item (id 3, ingredient 9 absent). -/
def joinStore : Store :=
  { recipes := []
    categories := []
    tags := []
    ingredients := [⟨1, "Flour", "", "g"⟩]
    recipe_categories := []
    recipe_tags := []
    recipe_ingredients := []
    shopping_lists := [⟨1, "L", ""⟩]
    shopping_list_items :=
      [⟨1, 1, some 1, 2, "g", false, ""⟩,
       ⟨2, 1, none, 1, "", false, ""⟩,
       ⟨3, 1, some 9, 1, "", false, ""⟩]
    next_recipe_id := 1
    next_category_id := 1
    next_tag_id := 1
    next_ingredient_id := 2
    next_list_id := 2
    next_item_id := 4 }

/-- Claim C9, witness: on joinStore the returned list holds exactly the live
item; the claim theorem applied at item row 1 yields its presence. -/
theorem get_shopping_list_joins_witness :
    ((joinStore.shopping_list_items.map ShoppingListItemRow.id).Nodup) ∧
    get_shopping_list joinStore 1 =
      some ⟨1, "L", "", [⟨1, some 1, "Flour", 2, "g", false, "", ""⟩]⟩ ∧
    ∃ o ∈ (⟨1, "L", "",
        [⟨1, some 1, "Flour", 2, "g", false, "", ""⟩]⟩ : ShoppingListOut).items,
      o.id = (1 : Nat) :=
  ⟨by decide, by rfl,
    ((get_shopping_list_joins_out_dead_items joinStore (by decide) 1
        ⟨1, "L", "", [⟨1, some 1, "Flour", 2, "g", false, "", ""⟩]⟩
        (by rfl)).2 ⟨1, 1, some 1, 2, "g", false, ""⟩ (by decide) rfl).1
      ⟨1, rfl, ⟨1, "Flour", "", "g"⟩, by decide, rfl⟩⟩

/-! ### Claim C2 -/

/-- Claim-side: the (ingredient, unit) pairs occurring among the ingredient
links of the given recipes. -/
def linkedPairs (s : Store) (rids : List Nat) : List (Nat × String) :=
  (s.recipe_ingredients.filter (fun ri => rids.contains ri.recipe_id)).map
    (fun ri => (ri.ingredient_id, ri.unit))

/-- Claim-side: the sum of the linked quantities of one (ingredient, unit)
pair across the given recipes. -/
def linkedTotal (s : Store) (rids : List Nat) (iid : Nat) (u : String) : Qty :=
  ((s.recipe_ingredients.filter (fun ri =>
      rids.contains ri.recipe_id &&
        (ri.ingredient_id == iid && ri.unit == u))).map
    RecipeIngredientRow.quantity).sum

/-- filterMap by a total function whose output projects back to the input is
the identity on the projection. -/
theorem filterMap_map_proj {α β : Type _} (f : α → Option β) (p : β → α) :
    ∀ l : List α, (∀ a ∈ l, (f a).isSome) →
      (∀ a b, f a = some b → p b = a) → (l.filterMap f).map p = l := by
  intro l
  induction l with
  | nil => intro _ _; rfl
  | cons a rest ih =>
    intro h1 h2
    rcases hfa : f a with _ | b
    · exact absurd (h1 a (List.mem_cons_self a rest)) (by simp [hfa])
    · simp only [List.filterMap_cons, hfa, List.map_cons]
      rw [h2 a b hfa, ih (fun x hx => h1 x (List.mem_cons_of_mem a hx)) h2]

/-- Under unique ingredient rowids and live references, the join of the
aggregation query hits every selected link row exactly once. -/
theorem joinedRows_fst (s : Store) (rids : List Nat)
    (hids : (s.ingredients.map IngredientRow.id).Nodup)
    (hrefs : ∀ ri ∈ s.recipe_ingredients,
      ∃ i ∈ s.ingredients, i.id = ri.ingredient_id) :
    (joinedRows s rids).map Prod.fst =
      s.recipe_ingredients.filter (fun ri => rids.contains ri.recipe_id) := by
  rw [joinedRows]
  have hrefs2 : ∀ ri ∈ s.recipe_ingredients.filter
      (fun ri => rids.contains ri.recipe_id),
      ∃ i ∈ s.ingredients, i.id = ri.ingredient_id :=
    fun ri hri => hrefs ri (List.mem_of_mem_filter hri)
  generalize hl : s.recipe_ingredients.filter
    (fun ri => rids.contains ri.recipe_id) = l at hrefs2 ⊢
  clear hl
  induction l with
  | nil => rfl
  | cons ri rest ih =>
    simp only [List.flatMap_cons, List.map_append]
    obtain ⟨i, hi, hid⟩ := hrefs2 ri (List.mem_cons_self _ _)
    have hfilter : s.ingredients.filter
        (fun x => x.id == ri.ingredient_id) = [i] := by
      have hsing := filter_key_singleton IngredientRow.id s.ingredients hids i hi
      rw [hid] at hsing
      exact hsing
    rw [hfilter, ih (fun x hx => hrefs2 x (List.mem_cons_of_mem _ hx))]
    rfl

/-- Projecting the per-pair filtered join onto link quantities equals
filtering the projected links. -/
theorem filter_fst_quantity (l : List (RecipeIngredientRow × IngredientRow))
    (iid : Nat) (u : String) :
    ((l.filter (fun x => x.1.ingredient_id == iid && x.1.unit == u)).map
      (fun x => x.1.quantity)) =
    ((l.map Prod.fst).filter
        (fun ri => ri.ingredient_id == iid && ri.unit == u)).map
      RecipeIngredientRow.quantity := by
  induction l with
  | nil => rfl
  | cons a rest ih =>
    by_cases hq : (a.1.ingredient_id == iid && a.1.unit == u) = true
    · simp only [List.filter_cons, List.map_cons, hq, if_pos, List.map_cons, ih]
    · simp only [List.filter_cons, List.map_cons, hq, Bool.false_eq_true,
        if_false, ih]

/-- The grouping keys are the distinct linked pairs. -/
theorem groupKeys_eq (s : Store) (rids : List Nat)
    (hids : (s.ingredients.map IngredientRow.id).Nodup)
    (hrefs : ∀ ri ∈ s.recipe_ingredients,
      ∃ i ∈ s.ingredients, i.id = ri.ingredient_id) :
    groupKeys s rids = (linkedPairs s rids).dedup := by
  rw [groupKeys, linkedPairs, ← joinedRows_fst s rids hids hrefs, List.map_map]
  rfl

/-- Every aggregation output row projects onto its grouping key. -/
theorem aggRowsRaw_proj (s : Store) (rids : List Nat) :
    (aggRowsRaw s rids).map (fun row => (row.ingredient_id, row.unit))
      = groupKeys s rids := by
  apply filterMap_map_proj
  · intro k hk
    have hk2 : k ∈ (joinedRows s rids).map
        (fun x => (x.1.ingredient_id, x.1.unit)) := by
      rw [groupKeys] at hk
      exact List.mem_dedup.1 hk
    obtain ⟨x, hx, hpx⟩ := List.mem_map.1 hk2
    have hs : ((joinedRows s rids).find? (fun y =>
        y.1.ingredient_id == k.1 && y.1.unit == k.2)).isSome := by
      rw [List.find?_isSome]
      refine ⟨x, hx, ?_⟩
      rw [← hpx]
      simp
    rcases hfind : (joinedRows s rids).find? (fun y =>
        y.1.ingredient_id == k.1 && y.1.unit == k.2) with _ | w
    · rw [hfind] at hs; simp at hs
    · simp [hfind]
  · intro k row hrow
    rcases Option.map_eq_some'.1 hrow with ⟨w, hw, hbuild⟩
    rw [← hbuild]

/-- Every aggregation output row carries the claimed per-pair total. -/
theorem aggRowsRaw_total (s : Store) (rids : List Nat)
    (hids : (s.ingredients.map IngredientRow.id).Nodup)
    (hrefs : ∀ ri ∈ s.recipe_ingredients,
      ∃ i ∈ s.ingredients, i.id = ri.ingredient_id) :
    ∀ row ∈ aggRowsRaw s rids,
      row.total_quantity = linkedTotal s rids row.ingredient_id row.unit := by
  intro row hrow
  rw [aggRowsRaw] at hrow
  obtain ⟨k, hk, hsome⟩ := List.mem_filterMap.1 hrow
  rcases Option.map_eq_some'.1 hsome with ⟨w, hw, hbuild⟩
  rw [← hbuild]
  show (((joinedRows s rids).filter (fun x =>
      x.1.ingredient_id == k.1 && x.1.unit == k.2)).map
    (fun x => x.1.quantity)).sum = linkedTotal s rids k.1 k.2
  rw [filter_fst_quantity (joinedRows s rids) k.1 k.2,
    joinedRows_fst s rids hids hrefs, List.filter_filter, linkedTotal]
  have hcongr : s.recipe_ingredients.filter (fun a =>
      (a.ingredient_id == k.1 && a.unit == k.2) && rids.contains a.recipe_id)
      = s.recipe_ingredients.filter (fun ri =>
        rids.contains ri.recipe_id && (ri.ingredient_id == k.1 && ri.unit == k.2)) :=
    List.filter_congr (fun x _ => Bool.and_comm _ _)
  rw [hcongr]

/-- The shopping_list_items rows appended by the insertion loop of
generate_shopping_list_from_recipes, starting at the given item rowid. -/
def genItems (lid : Nat) : Nat → List GroupedRow → List ShoppingListItemRow
  | _, [] => []
  | base, row :: rest =>
    ⟨base, lid, some row.ingredient_id, row.total_quantity, row.unit, false, ""⟩
      :: genItems lid (base + 1) rest

/-- The insertion loop appends exactly genItems and touches no other
shopping state. -/
theorem foldl_add_items (lid : Nat) :
    ∀ (rows : List GroupedRow) (st : Store),
      ((rows.foldl (fun st row =>
          (add_shopping_list_item st lid (some row.ingredient_id)
            row.total_quantity row.unit "").1) st).shopping_list_items
        = st.shopping_list_items ++ genItems lid st.next_item_id rows) ∧
      ((rows.foldl (fun st row =>
          (add_shopping_list_item st lid (some row.ingredient_id)
            row.total_quantity row.unit "").1) st).shopping_lists
        = st.shopping_lists) := by
  intro rows
  induction rows with
  | nil => intro st; simp [genItems]
  | cons row rest ih =>
    intro st
    rw [List.foldl_cons]
    obtain ⟨ha, hb⟩ := ih ((add_shopping_list_item st lid
      (some row.ingredient_id) row.total_quantity row.unit "").1)
    refine ⟨?_, hb.trans rfl⟩
    rw [ha]
    show (st.shopping_list_items ++ [_]) ++ genItems lid (st.next_item_id + 1) rest
      = st.shopping_list_items ++ genItems lid st.next_item_id (row :: rest)
    rw [genItems, List.append_assoc]
    rfl

/-- Shape of every generated item row. -/
theorem genItems_mem (lid : Nat) :
    ∀ (rows : List GroupedRow) (base : Nat) (it : ShoppingListItemRow),
      it ∈ genItems lid base rows →
      it.shopping_list_id = lid ∧ ∃ row ∈ rows,
        it.ingredient_id = some row.ingredient_id ∧ it.unit = row.unit ∧
        it.quantity = row.total_quantity := by
  intro rows
  induction rows with
  | nil => intro base it hit; simp [genItems] at hit
  | cons row rest ih =>
    intro base it hit
    rw [genItems] at hit
    rcases List.mem_cons.1 hit with rfl | hmem
    · exact ⟨rfl, row, List.mem_cons_self _ _, rfl, rfl, rfl⟩
    · obtain ⟨h1, r2, hr2, h3⟩ := ih (base + 1) it hmem
      exact ⟨h1, r2, List.mem_cons_of_mem _ hr2, h3⟩

/-- Every aggregation row yields a generated item. -/
theorem genItems_cover (lid : Nat) :
    ∀ (rows : List GroupedRow) (base : Nat) (row : GroupedRow), row ∈ rows →
      ∃ it ∈ genItems lid base rows,
        it.shopping_list_id = lid ∧
        it.ingredient_id = some row.ingredient_id ∧ it.unit = row.unit ∧
        it.quantity = row.total_quantity := by
  intro rows
  induction rows with
  | nil => intro base row hrow; exact absurd hrow (List.not_mem_nil row)
  | cons r0 rest ih =>
    intro base row hrow
    rcases List.mem_cons.1 hrow with rfl | hmem
    · exact ⟨⟨base, lid, some row.ingredient_id, row.total_quantity,
        row.unit, false, ""⟩, by rw [genItems]; exact List.mem_cons_self _ _,
        rfl, rfl, rfl, rfl⟩
    · obtain ⟨it, hit, hprops⟩ := ih (base + 1) row hmem
      exact ⟨it, by rw [genItems]; exact List.mem_cons_of_mem _ hit, hprops⟩

/-- Generated items project onto their aggregation rows. -/
theorem genItems_proj (lid : Nat) :
    ∀ (rows : List GroupedRow) (base : Nat),
      (genItems lid base rows).map (fun it => (it.ingredient_id, it.unit))
        = rows.map (fun row => (some row.ingredient_id, row.unit)) := by
  intro rows
  induction rows with
  | nil => intro base; rfl
  | cons row rest ih =>
    intro base
    rw [genItems, List.map_cons, List.map_cons, ih]

/-- Decomposition of generate_shopping_list_from_recipes on a non-empty id
list: it returns the fresh list rowid, appends exactly one shopping_lists
row under that rowid, and appends exactly the generated items. -/
theorem generate_decomp (s : Store) (rids : List Nat) (name : Option String)
    (today : String) (hne : rids.isEmpty = false) :
    (generate_shopping_list_from_recipes s rids name today).2
      = nextRowId (s.shopping_lists.map ShoppingListRow.id) ∧
    (∃ nm : String,
      (generate_shopping_list_from_recipes s rids name today).1.shopping_lists
        = s.shopping_lists ++
          [⟨nextRowId (s.shopping_lists.map ShoppingListRow.id), nm,
            "Generated from selected recipes"⟩]) ∧
    (generate_shopping_list_from_recipes s rids name today).1.shopping_list_items
      = s.shopping_list_items ++
        genItems (nextRowId (s.shopping_lists.map ShoppingListRow.id))
          s.next_item_id (aggRows s rids) := by
  rw [generate_shopping_list_from_recipes.eq_def]
  simp only [create_shopping_list, hne, Bool.false_eq_true, if_false]
  refine ⟨by trivial, ⟨_, (foldl_add_items _ _ _).2.trans rfl⟩,
    (foldl_add_items _ _ _).1.trans ?_⟩
  rfl

/-- Every element of a list is bounded by treating foldr max over it. -/
theorem le_foldr_max (ids : List Nat) : ∀ x ∈ ids, x ≤ ids.foldr max 0 := by
  induction ids with
  | nil => intro x hx; exact absurd hx (List.not_mem_nil x)
  | cons a rest ih =>
    intro x hx
    rcases List.mem_cons.1 hx with rfl | hx2
    · exact le_max_left _ _
    · exact le_trans (ih x hx2) (le_max_right _ _)

/-- Claim C2 (amended): on a non-empty list of existing recipe ids,
generate_shopping_list_from_recipes creates a new shopping list under the
reused SQLite rowid max(list id) + 1, an id no current list carries, and
inserts one item per distinct (ingredient, unit) pair among the ingredient
links of those recipes, each carrying the sum of the linked quantities of
its pair - so one ingredient under two units stays on two separate,
uncombined lines.  Because items of deleted lists survive (the cascade is
inert) and their list id can be reused, the read-back guarantees hold only
under the stated hypothesis that no surviving item carries the new id; the
counterexample shows a reachable state violating them without it. -/
theorem generate_shopping_list_aggregates_by_pair (s : Store) (hWF : WF s)
    (rids : List Nat) (hne : rids ≠ [])
    (hex : ∀ rid ∈ rids, ∃ r ∈ s.recipes, r.id = rid)
    (name : Option String) (today : String) (s2 : Store) (lid : Nat)
    (h : generate_shopping_list_from_recipes s rids name today = (s2, lid))
    (horph : ∀ it ∈ s.shopping_list_items, it.shopping_list_id ≠ lid) :
    (∀ l ∈ s.shopping_lists, l.id ≠ lid) ∧
    (∃ l ∈ s2.shopping_lists, l.id = lid) ∧
    (∀ iid u, ((iid, u) ∈ linkedPairs s rids ↔
      ∃ it ∈ s2.shopping_list_items, it.shopping_list_id = lid ∧
        it.ingredient_id = some iid ∧ it.unit = u)) ∧
    ((s2.shopping_list_items.filter
        (fun it => it.shopping_list_id == lid)).map
      (fun it => (it.ingredient_id, it.unit))).Nodup ∧
    (∀ it ∈ s2.shopping_list_items, it.shopping_list_id = lid →
      ∀ iid, it.ingredient_id = some iid →
        it.quantity = linkedTotal s rids iid it.unit) := by
  have hne' : rids.isEmpty = false := by simpa using hne
  obtain ⟨h2, ⟨nm, hls⟩, hit⟩ := generate_decomp s rids name today hne'
  rw [h] at h2 hls hit
  have h2' : lid = nextRowId (s.shopping_lists.map ShoppingListRow.id) := h2
  have hls' : s2.shopping_lists = s.shopping_lists ++
    [⟨nextRowId (s.shopping_lists.map ShoppingListRow.id), nm,
      "Generated from selected recipes"⟩] := hls
  have hit' : s2.shopping_list_items = s.shopping_list_items ++
    genItems (nextRowId (s.shopping_lists.map ShoppingListRow.id))
      s.next_item_id (aggRows s rids) := hit
  subst h2'
  have hkeys : groupKeys s rids = (linkedPairs s rids).dedup :=
    groupKeys_eq s rids hWF.ing_ids hWF.ri_refs
  have hperm : List.Perm (aggRows s rids) (aggRowsRaw s rids) :=
    List.perm_insertionSort _ _
  constructor
  · intro l hl
    have hle := le_foldr_max (s.shopping_lists.map ShoppingListRow.id)
      l.id (List.mem_map_of_mem _ hl)
    rw [nextRowId]
    omega
  constructor
  · exact ⟨⟨(nextRowId (s.shopping_lists.map ShoppingListRow.id)), nm, "Generated from selected recipes"⟩,
      by rw [hls']; exact List.mem_append_right _ (List.mem_singleton_self _),
      rfl⟩
  constructor
  · intro iid u
    constructor
    · intro hpair
      have hk : (iid, u) ∈ groupKeys s rids := by
        rw [hkeys]
        exact List.mem_dedup.2 hpair
      rw [← aggRowsRaw_proj s rids] at hk
      obtain ⟨row, hrowm, hrowp⟩ := List.mem_map.1 hk
      have hrow2 : row ∈ aggRows s rids := by
        rw [aggRows, List.mem_insertionSort]
        exact hrowm
      obtain ⟨it, hitm, hslid, hiid, hunit, -⟩ :=
        genItems_cover (nextRowId (s.shopping_lists.map ShoppingListRow.id)) (aggRows s rids) s.next_item_id row hrow2
      refine ⟨it, ?_, hslid, ?_, ?_⟩
      · rw [hit']
        exact List.mem_append_right _ hitm
      · rw [hiid]
        have : row.ingredient_id = iid := congrArg Prod.fst hrowp
        rw [this]
      · rw [hunit]
        exact congrArg Prod.snd hrowp
    · rintro ⟨it, hitm, hslid, hiid, hunit⟩
      rw [hit'] at hitm
      rcases List.mem_append.1 hitm with hold | hnew
      · exact absurd hslid (horph it hold)
      · obtain ⟨-, row, hrowm, hriid, hrunit, -⟩ :=
          genItems_mem (nextRowId (s.shopping_lists.map ShoppingListRow.id)) (aggRows s rids) s.next_item_id it hnew
        have hrowraw : row ∈ aggRowsRaw s rids := by
          rw [aggRows, List.mem_insertionSort] at hrowm
          exact hrowm
        have hproj : (row.ingredient_id, row.unit) ∈ groupKeys s rids := by
          rw [← aggRowsRaw_proj s rids]
          exact List.mem_map_of_mem _ hrowraw
        have hpair : (row.ingredient_id, row.unit) ∈ linkedPairs s rids := by
          rw [hkeys] at hproj
          exact List.mem_dedup.1 hproj
        have hiid2 : row.ingredient_id = iid := by
          rw [hriid] at hiid
          exact Option.some.inj hiid
        have hunit2 : row.unit = u := by rw [← hrunit, hunit]
        rw [hiid2, hunit2] at hpair
        exact hpair
  constructor
  · rw [hit', List.filter_append]
    have hleft : s.shopping_list_items.filter
        (fun it => it.shopping_list_id == (nextRowId (s.shopping_lists.map ShoppingListRow.id))) = [] := by
      apply List.filter_eq_nil_iff.2
      intro it hitm
      simp only [beq_iff_eq]
      exact horph it hitm
    have hright : (genItems (nextRowId (s.shopping_lists.map ShoppingListRow.id)) s.next_item_id
        (aggRows s rids)).filter
        (fun it => it.shopping_list_id == (nextRowId (s.shopping_lists.map ShoppingListRow.id)))
        = genItems (nextRowId (s.shopping_lists.map ShoppingListRow.id)) s.next_item_id (aggRows s rids) := by
      apply List.filter_eq_self.2
      intro it hitm
      simp only [beq_iff_eq]
      exact (genItems_mem (nextRowId (s.shopping_lists.map ShoppingListRow.id)) (aggRows s rids)
        s.next_item_id it hitm).1
    rw [hleft, hright, List.nil_append, genItems_proj]
    have hrawproj : ((aggRowsRaw s rids).map
        (fun row => (some row.ingredient_id, row.unit))).Nodup := by
      have h1 : ((aggRowsRaw s rids).map
          (fun row => (row.ingredient_id, row.unit))).Nodup := by
        rw [aggRowsRaw_proj s rids, hkeys]
        exact List.nodup_dedup _
      have hinj : Function.Injective
          (fun k : Nat × String => ((some k.1 : Option Nat), k.2)) := by
        intro a b hab
        simp only [Prod.mk.injEq, Option.some.injEq] at hab
        exact Prod.ext hab.1 hab.2
      have h2 := h1.map hinj
      rw [List.map_map] at h2
      exact h2
    exact ((hperm.map _).nodup_iff).2 hrawproj
  · intro it hitm hslid iid hiid
    rw [hit'] at hitm
    rcases List.mem_append.1 hitm with hold | hnew
    · exact absurd hslid (horph it hold)
    · obtain ⟨-, row, hrowm, hriid, hrunit, hrq⟩ :=
        genItems_mem (nextRowId (s.shopping_lists.map ShoppingListRow.id)) (aggRows s rids) s.next_item_id it hnew
      have hrowraw : row ∈ aggRowsRaw s rids := by
        rw [aggRows, List.mem_insertionSort] at hrowm
        exact hrowm
      have htot := aggRowsRaw_total s rids hWF.ing_ids hWF.ri_refs row hrowraw
      have hiid2 : row.ingredient_id = iid := by
        rw [hriid] at hiid
        exact Option.some.inj hiid
      rw [hrq, htot, hiid2, hrunit]

/-- Well-formed input store for the aggregation witness: one recipe, no
links, nothing else. -/
def c2Store : Store :=
  { recipes := [⟨1, "R", "", "", 0, 0, 1, "Medium", "", "", false⟩]
    categories := []
    tags := []
    ingredients := []
    recipe_categories := []
    recipe_tags := []
    recipe_ingredients := []
    shopping_lists := []
    shopping_list_items := []
    next_recipe_id := 2
    next_category_id := 1
    next_tag_id := 1
    next_ingredient_id := 1
    next_list_id := 1
    next_item_id := 1 }

/-- The store generate_shopping_list_from_recipes produces from c2Store. -/
def c2Out : Store :=
  { c2Store with
    shopping_lists :=
      [⟨1, "Shopping list (2026-10-12)", "Generated from selected recipes"⟩]
    next_list_id := 2 }

/-- Claim C2, witness: the aggregation theorem applied to a concrete store
and recipe list, every hypothesis (including the absence of surviving items
under the new id) discharged there. -/
theorem generate_shopping_list_witness :
    ([1] ≠ ([] : List Nat)) ∧
    (∀ rid ∈ [1], ∃ r ∈ c2Store.recipes, r.id = rid) ∧
    (∀ it ∈ c2Store.shopping_list_items, it.shopping_list_id ≠ 1) ∧
    (∃ l ∈ c2Out.shopping_lists, l.id = 1) :=
  ⟨by decide, by decide, by decide,
    (generate_shopping_list_aggregates_by_pair c2Store
      (by constructor <;> decide) [1] (by decide) (by decide) none
      "2026-10-12" c2Out 1 (by rfl) (by decide)).2.1⟩

/-- The store reached from a fresh database by add_recipe of a Cake recipe
carrying 200 g of Flour. -/
def c2SeedStore : Store :=
  match add_recipe freshStore
      { name := some "Cake"
        ingredients := some [{ name := some "Flour"
                               quantity := 200
                               unit := "g" }] } with
  | .ok p => p.1
  | .error _ => freshStore

/-- The reachable store with an orphaned item: create a shopping list, add
a 2 g Flour item to it, delete the list.  The item survives the delete (the
declared cascade is inert) and its shopping_list_id 1 is free for reuse. -/
def c2Orphaned : Store :=
  (delete_shopping_list
    (add_shopping_list_item
      (create_shopping_list c2SeedStore "Temp" "").1
      1 (some 1) 2 "g" "").1
    1).1

/-- The store generate_shopping_list_from_recipes produces from the
orphaned state. -/
def c2Gen : Store :=
  (generate_shopping_list_from_recipes c2Orphaned [1] none "2026-01-01").1

/-- Counterexample to C2 as stated: from a fresh database, create a list,
add a 2 g Flour item, delete the list, then generate from recipe 1 (200 g
Flour).  SQLite reuses rowid 1 for the generated list, which thereby
inherits the surviving orphaned item: the list carries two lines for the
single (ingredient, unit) pair (Flour, g) - the inherited 2 g line and the
generated 200 g line - refuting one item per distinct pair with the summed
quantity. -/
theorem generate_reused_id_inherits_orphans_cex :
    c2Orphaned.shopping_lists = [] ∧
    (∃ it ∈ c2Orphaned.shopping_list_items,
      it.id = 1 ∧ it.shopping_list_id = 1 ∧ it.ingredient_id = some 1 ∧
      it.unit = "g" ∧ it.quantity = 2) ∧
    generate_shopping_list_from_recipes c2Orphaned [1] none "2026-01-01"
      = (c2Gen, 1) ∧
    (∃ it ∈ c2Gen.shopping_list_items,
      it.id = 1 ∧ it.shopping_list_id = 1 ∧ it.ingredient_id = some 1 ∧
      it.unit = "g" ∧ it.quantity = 2) ∧
    (∃ it ∈ c2Gen.shopping_list_items,
      it.id = 2 ∧ it.shopping_list_id = 1 ∧ it.ingredient_id = some 1 ∧
      it.unit = "g") ∧
    ¬ ((c2Gen.shopping_list_items.filter
        (fun it => it.shopping_list_id == 1)).map
      (fun it => (it.ingredient_id, it.unit))).Nodup := by
  refine ⟨rfl, by decide, rfl, by decide, by decide, by decide⟩

/-! ### Claim C3 -/

/-- Claim-side wording of the original text-search dimension: the needle
appears in the haystack as a case-insensitive substring. -/
def containsCI (hay needle : String) : Prop :=
  (needle.data.map Char.toLower) <:+: (hay.data.map Char.toLower)

instance (hay needle : String) : Decidable (containsCI hay needle) :=
  List.decidableInfix _ _

/-- The text dimension as the code implements it: when a non-empty query is
given, some of the three text columns matches the LIKE pattern built from
it (wildcards the query contains stay live). -/
def queryDim (r : RecipeRow) (query : Option String) : Prop :=
  ∀ q, query = some q → q ≠ "" →
    (sqlLike r.name (likeWrap q) = true ∨
     sqlLike r.description (likeWrap q) = true ∨
     sqlLike r.instructions (likeWrap q) = true)

/-- When a non-empty category list is given, the category set of the recipe
meets it. -/
def catDim (s : Store) (r : RecipeRow) (cats : Option (List String)) : Prop :=
  ∀ l, cats = some l → l ≠ [] → ∃ n ∈ recipeCategoryNames s r.id, n ∈ l

/-- When a non-empty tag list is given, the tag set of the recipe meets it. -/
def tagDim (s : Store) (r : RecipeRow) (tgs : Option (List String)) : Prop :=
  ∀ l, tgs = some l → l ≠ [] → ∃ n ∈ recipeTagNames s r.id, n ∈ l

/-- When a favorite filter is given, the favorite flag equals it. -/
def favDim (r : RecipeRow) (favorite : Option Bool) : Prop :=
  ∀ f, favorite = some f → r.favorite = f

/-- Membership in the dynamically joined rows. -/
theorem searchJoinRows_mem (s : Store) (uc ut : Bool)
    (x : RecipeRow × Option String × Option String) :
    x ∈ searchJoinRows s uc ut ↔
      x.1 ∈ s.recipes ∧
      (if uc then ∃ n, x.2.1 = some n ∧ n ∈ recipeCategoryNames s x.1.id
       else x.2.1 = none) ∧
      (if ut then ∃ n, x.2.2 = some n ∧ n ∈ recipeTagNames s x.1.id
       else x.2.2 = none) := by
  obtain ⟨r, cn, tn⟩ := x
  rw [searchJoinRows, List.mem_flatMap]
  constructor
  · rintro ⟨a, ha, hrest⟩
    rw [List.mem_flatMap] at hrest
    obtain ⟨cn0, hcn0, hinner⟩ := hrest
    rw [List.mem_map] at hinner
    obtain ⟨tn0, htn0, heq⟩ := hinner
    obtain ⟨h1, h2, h3⟩ : a = r ∧ cn0 = cn ∧ tn0 = tn := by
      simpa [Prod.ext_iff] using heq
    subst h1; subst h2; subst h3
    refine ⟨ha, ?_, ?_⟩
    · cases uc with
      | false =>
        have h0 : cn0 = none := by simpa using hcn0
        simp [h0]
      | true =>
        have h0 : cn0 ∈ (recipeCategoryNames s a.id).map some := by
          simpa using hcn0
        obtain ⟨n, hn, rfl⟩ := List.mem_map.1 h0
        simpa using hn
    · cases ut with
      | false =>
        have h0 : tn0 = none := by simpa using htn0
        simp [h0]
      | true =>
        have h0 : tn0 ∈ (recipeTagNames s a.id).map some := by
          simpa using htn0
        obtain ⟨n, hn, rfl⟩ := List.mem_map.1 h0
        simpa using hn
  · rintro ⟨ha, hc, ht⟩
    refine ⟨r, ha, ?_⟩
    rw [List.mem_flatMap]
    refine ⟨cn, ?_, ?_⟩
    · cases uc with
      | false =>
        simp only [if_neg (by simp : ¬ (false : Bool) = true)] at hc
        simp [hc]
      | true =>
        obtain ⟨n, rfl, hn⟩ := by simpa using hc
        simp only [if_pos rfl]
        exact List.mem_map_of_mem _ hn
    · rw [List.mem_map]
      refine ⟨tn, ?_, rfl⟩
      cases ut with
      | false =>
        simp only [if_neg (by simp : ¬ (false : Bool) = true)] at ht
        simp [ht]
      | true =>
        obtain ⟨n, rfl, hn⟩ := by simpa using ht
        simp only [if_pos rfl]
        exact List.mem_map_of_mem _ hn

/-- Python truthiness of the optional lists, unfolded. -/
theorem truthyList_eq_true (o : Option (List String)) :
    truthyList o = true ↔ ∃ l, o = some l ∧ l ≠ [] := by
  cases o with
  | none => simp [truthyList]
  | some l => simp [truthyList, List.isEmpty_iff]

/-- Claim C3, amended: the text dimension is SQL LIKE matching of the three
text columns against the %-wrapped query (wildcard characters inside the
query stay live; on wildcard-free queries this is exactly case-insensitive
substring containment) - the rest as claimed: each matching recipe id is
returned at most once, and a recipe is returned iff it satisfies every
supplied filter dimension, lists ORed within themselves, dimensions ANDed.
-/
theorem search_recipes_filter_semantics (s : Store)
    (hids : (s.recipes.map RecipeRow.id).Nodup)
    (query : Option String) (cats tgs : Option (List String))
    (fav : Option Bool) :
    ((search_recipes s query cats tgs fav).map RecipeSummary.id).Nodup ∧
    ∀ r ∈ s.recipes,
      (r.id ∈ (search_recipes s query cats tgs fav).map RecipeSummary.id ↔
        (queryDim r query ∧ catDim s r cats ∧ tagDim s r tgs ∧
          favDim r fav)) := by
  have hmem : ∀ y : RecipeSummary,
      y ∈ search_recipes s query cats tgs fav ↔
      ∃ x ∈ searchJoinRows s (truthyList cats) (truthyList tgs),
        searchCond query (cats.getD []) (tgs.getD []) fav x = true ∧
          summaryOf x.1 = y := by
    intro y
    rw [search_recipes, List.mem_dedup, List.mem_map]
    constructor
    · rintro ⟨x, hx, rfl⟩
      rw [List.mem_filter] at hx
      exact ⟨x, hx.1, hx.2, rfl⟩
    · rintro ⟨x, hx1, hx2, rfl⟩
      exact ⟨x, List.mem_filter.2 ⟨hx1, hx2⟩, rfl⟩
  have hnd : (search_recipes s query cats tgs fav).Nodup := by
    rw [search_recipes]
    exact List.nodup_dedup _
  have hsumm : ∀ y ∈ search_recipes s query cats tgs fav,
      ∃ rr ∈ s.recipes, summaryOf rr = y := by
    intro y hy
    obtain ⟨x, hx, -, rfl⟩ := (hmem y).1 hy
    exact ⟨x.1, ((searchJoinRows_mem s _ _ x).1 hx).1, rfl⟩
  constructor
  · refine List.Nodup.map_on ?_ hnd
    intro y hy z hz hyz
    obtain ⟨ry, hry, rfl⟩ := hsumm y hy
    obtain ⟨rz, hrz, rfl⟩ := hsumm z hz
    have h3 : ry = rz := List.inj_on_of_nodup_map hids hry hrz hyz
    rw [h3]
  · intro r hr
    constructor
    · intro hin
      obtain ⟨y, hy, hyid⟩ := List.mem_map.1 hin
      obtain ⟨x, hxrows, hxcond, rfl⟩ := (hmem y).1 hy
      obtain ⟨rr, cn, tn⟩ := x
      have hj := (searchJoinRows_mem s _ _ (rr, cn, tn)).1 hxrows
      have hrr : rr = r := List.inj_on_of_nodup_map hids hj.1 hr hyid
      subst hrr
      rw [searchCond.eq_def] at hxcond
      simp only [Bool.and_eq_true] at hxcond
      obtain ⟨⟨⟨hc1, hc2⟩, hc3⟩, hc4⟩ := hxcond
      refine ⟨?_, ?_, ?_, ?_⟩
      · intro q hq hqne
        rw [hq] at hc3
        have hq' : (q == "") = false := by simpa using hqne
        simp only [hq', Bool.false_eq_true, if_false] at hc3
        simpa [Bool.or_eq_true, or_assoc] using hc3
      · intro l hl hlne
        have huc : truthyList cats = true :=
          (truthyList_eq_true cats).2 ⟨l, hl, hlne⟩
        have hcc : ∃ n, cn = some n ∧ n ∈ recipeCategoryNames s rr.id := by
          have h0 := hj.2.1
          rw [huc] at h0
          simpa using h0
        obtain ⟨n, rfl, hn⟩ := hcc
        rw [hl] at hc1
        refine ⟨n, hn, ?_⟩
        simpa [List.elem_iff] using hc1
      · intro l hl hlne
        have hut : truthyList tgs = true :=
          (truthyList_eq_true tgs).2 ⟨l, hl, hlne⟩
        have hcc : ∃ n, tn = some n ∧ n ∈ recipeTagNames s rr.id := by
          have h0 := hj.2.2
          rw [hut] at h0
          simpa using h0
        obtain ⟨n, rfl, hn⟩ := hcc
        rw [hl] at hc2
        refine ⟨n, hn, ?_⟩
        simpa [List.elem_iff] using hc2
      · intro f hf
        rw [hf] at hc4
        have : (rr.favorite == f) = true := by simpa using hc4
        exact eq_of_beq this
    · rintro ⟨hqd, hcd, htd, hfd⟩
      have hcatChoice : ∃ cn : Option String,
          (if truthyList cats then
            ∃ n, cn = some n ∧ n ∈ recipeCategoryNames s r.id
           else cn = none) ∧
          ((match cn with
            | some n => (cats.getD []).contains n
            | none => true) = true) := by
        by_cases huc : truthyList cats = true
        · obtain ⟨l, hl, hlne⟩ := (truthyList_eq_true cats).1 huc
          obtain ⟨n, hn, hnl⟩ := hcd l hl hlne
          refine ⟨some n, ?_, ?_⟩
          · rw [huc]
            simp only [if_pos]
            exact ⟨n, rfl, hn⟩
          · rw [hl]
            simpa [List.elem_iff] using hnl
        · have huc' : truthyList cats = false := by simpa using huc
          exact ⟨none, by rw [huc']; simp, by simp⟩
      have htagChoice : ∃ tn : Option String,
          (if truthyList tgs then
            ∃ n, tn = some n ∧ n ∈ recipeTagNames s r.id
           else tn = none) ∧
          ((match tn with
            | some n => (tgs.getD []).contains n
            | none => true) = true) := by
        by_cases hut : truthyList tgs = true
        · obtain ⟨l, hl, hlne⟩ := (truthyList_eq_true tgs).1 hut
          obtain ⟨n, hn, hnl⟩ := htd l hl hlne
          refine ⟨some n, ?_, ?_⟩
          · rw [hut]
            simp only [if_pos]
            exact ⟨n, rfl, hn⟩
          · rw [hl]
            simpa [List.elem_iff] using hnl
        · have hut' : truthyList tgs = false := by simpa using hut
          exact ⟨none, by rw [hut']; simp, by simp⟩
      obtain ⟨CN, hCN1, hCN2⟩ := hcatChoice
      obtain ⟨TN, hTN1, hTN2⟩ := htagChoice
      refine List.mem_map.2 ⟨summaryOf r,
        (hmem _).2 ⟨(r, CN, TN), ?_, ?_, rfl⟩, rfl⟩
      · exact (searchJoinRows_mem s _ _ (r, CN, TN)).2 ⟨hr, hCN1, hTN1⟩
      · rw [searchCond.eq_def]
        simp only [Bool.and_eq_true]
        refine ⟨⟨⟨hCN2, hTN2⟩, ?_⟩, ?_⟩
        · cases hq : query with
          | none => rfl
          | some q =>
            by_cases hqe : q = ""
            · simp [hqe]
            · have hq' : (q == "") = false := by simpa using hqe
              simp only [hq', Bool.false_eq_true, if_false]
              rcases hqd q hq hqe with h | h | h <;>
                simp [h]
        · cases hf : fav with
          | none => rfl
          | some f =>
            have := hfd f hf
            simp [this]

/-- Store with one recipe named "ab" (empty description / instructions),
exercising the text dimension of search_recipes. -/
def likeStore : Store :=
  { recipes := [⟨1, "ab", "", "", 0, 0, 1, "Medium", "", "", false⟩]
    categories := []
    tags := []
    ingredients := []
    recipe_categories := []
    recipe_tags := []
    recipe_ingredients := []
    shopping_lists := []
    shopping_list_items := []
    next_recipe_id := 2
    next_category_id := 1
    next_tag_id := 1
    next_ingredient_id := 1
    next_list_id := 1
    next_item_id := 1 }

/-- Claim C3, counterexample to the claim as stated: searching for the
query "a_" returns the recipe named "ab" (the underscore is a live LIKE
wildcard matching the letter b), although no text column of the recipe
contains "a_" as a case-insensitive substring - so "returned iff a field
contains the query as substring" is false on the code. -/
theorem search_substring_cex :
    (search_recipes likeStore (some "a_") none none none).map
      RecipeSummary.id = [1] ∧
    ¬ containsCI "ab" "a_" ∧ ¬ containsCI "" "a_" := by
  refine ⟨by rfl, by decide, by decide⟩

/-- Claim C3, amended, witness: the filter-semantics theorem applied to a
concrete store, its uniqueness hypothesis discharged there. -/
theorem search_recipes_filter_witness :
    ((likeStore.recipes.map RecipeRow.id).Nodup) ∧
    ((search_recipes likeStore none none none (some false)).map
      RecipeSummary.id).Nodup :=
  ⟨by decide,
    (search_recipes_filter_semantics likeStore (by decide) none none none
      (some false)).1⟩

/-! ### Get-or-create loop lemmas (shared by claims C4 and C5) -/

/-- Appending a link for the recipe appends the resolution of its label. -/
theorem labelNamesOf_append_link (links : List LinkRow) (tbl : List LabelRow)
    (rid cid : Nat) :
    labelNamesOf (links ++ [⟨rid, cid⟩]) tbl rid
      = labelNamesOf links tbl rid ++
        (tbl.filter (fun c => c.id == cid)).map LabelRow.name := by
  rw [labelNamesOf, labelNamesOf, List.filter_append, List.flatMap_append]
  simp

/-- A label row none of the links reference does not change the resolution.
-/
theorem labelNamesOf_grow_tbl (links : List LinkRow) (tbl : List LabelRow)
    (rid : Nat) (row : LabelRow)
    (hb : ∀ l ∈ links, l.label_id ≠ row.id) :
    labelNamesOf links (tbl ++ [row]) rid = labelNamesOf links tbl rid := by
  rw [labelNamesOf, labelNamesOf]
  have hgen : ∀ L : List LinkRow, (∀ l ∈ L, l.label_id ≠ row.id) →
      L.flatMap (fun l =>
        ((tbl ++ [row]).filter (fun c => c.id == l.label_id)).map LabelRow.name)
      = L.flatMap (fun l =>
        (tbl.filter (fun c => c.id == l.label_id)).map LabelRow.name) := by
    intro L
    induction L with
    | nil => intro _; rfl
    | cons l rest ihL =>
      intro hL
      rw [List.flatMap_cons, List.flatMap_cons,
        ihL (fun x hx => hL x (List.mem_cons_of_mem _ hx))]
      have hrow : (row.id == l.label_id) = false := by
        simp only [beq_eq_false_iff_ne, ne_eq]
        exact fun he => hL l (List.mem_cons_self _ _) he.symm
      rw [List.filter_append]
      simp [List.filter_cons, hrow]
  exact hgen _ (fun l hl => hb l (List.mem_of_mem_filter hl))

/-- Resolving the id of a freshly created label row yields its name. -/
theorem resolve_created (tbl : List LabelRow) (next : Nat) (nm : String)
    (hlt : ∀ c ∈ tbl, c.id < next) :
    ((tbl ++ [(⟨next, nm⟩ : LabelRow)]).filter
        (fun c => c.id == next)).map LabelRow.name = [nm] := by
  rw [List.filter_append,
    filter_key_nil LabelRow.id tbl next (fun c hc => Nat.ne_of_lt (hlt c hc))]
  simp

/-- Resolving the id of a found label row yields its name. -/
theorem resolve_found (tbl : List LabelRow) (c : LabelRow)
    (hids : (tbl.map LabelRow.id).Nodup) (hc : c ∈ tbl) :
    (tbl.filter (fun x => x.id == c.id)).map LabelRow.name = [c.name] := by
  rw [filter_key_singleton LabelRow.id tbl hids c hc]
  rfl

/-- getOrCreateLabel when the SELECT finds a row. -/
theorem getOrCreateLabel_found (tbl : List LabelRow) (next : Nat) (nm : String)
    (c : LabelRow) (hfind : tbl.find? (fun x => x.name == nm) = some c) :
    getOrCreateLabel tbl next nm = ((tbl, next), c.id) := by
  rw [getOrCreateLabel, hfind]

/-- getOrCreateLabel when the SELECT finds nothing. -/
theorem getOrCreateLabel_created (tbl : List LabelRow) (next : Nat)
    (nm : String) (hfind : tbl.find? (fun x => x.name == nm) = none) :
    getOrCreateLabel tbl next nm = ((tbl ++ [⟨next, nm⟩], next + 1), next) := by
  rw [getOrCreateLabel, hfind]

/-- INSERT OR IGNORE appends when the composite key is absent. -/
theorem insertLinkIgnore_not_present (links : List LinkRow) (rid cid : Nat)
    (h : ∀ l ∈ links, ¬(l.recipe_id = rid ∧ l.label_id = cid)) :
    insertLinkIgnore links rid cid = links ++ [⟨rid, cid⟩] := by
  rw [insertLinkIgnore, if_neg]
  intro hc
  obtain ⟨l, hl, hp⟩ := List.any_eq_true.1 hc
  simp only [Bool.and_eq_true, beq_iff_eq] at hp
  exact h l hl hp

/-- INSERT OR IGNORE is a no-op when the composite key is present. -/
theorem insertLinkIgnore_present (links : List LinkRow) (rid cid : Nat)
    (h : ∃ l ∈ links, l.recipe_id = rid ∧ l.label_id = cid) :
    insertLinkIgnore links rid cid = links := by
  rw [insertLinkIgnore, if_pos]
  obtain ⟨l, hl, hp⟩ := h
  exact List.any_eq_true.2 ⟨l, hl, by simp [hp.1, hp.2]⟩

/-- Running the shared get-or-create label loop appends exactly the supplied
names to the joined name list, provided the label names and ids are unique,
ids and link label ids are below the counter, the supplied names are
pairwise distinct, and no supplied name is already linked to the recipe. -/
theorem labelLoop_names_eq (rid : Nat) :
    ∀ (cl : List String) (tbl : List LabelRow) (next : Nat)
      (links : List LinkRow),
      (tbl.map LabelRow.name).Nodup →
      (tbl.map LabelRow.id).Nodup →
      (∀ c ∈ tbl, c.id < next) →
      (∀ l ∈ links, l.label_id < next) →
      (∀ c ∈ tbl, c.name ∈ cl →
        ∀ l ∈ links, ¬(l.recipe_id = rid ∧ l.label_id = c.id)) →
      cl.Nodup →
      labelNamesOf (labelLoop rid cl (tbl, next, links)).2.2
          (labelLoop rid cl (tbl, next, links)).1 rid
        = labelNamesOf links tbl rid ++ cl := by
  intro cl
  induction cl with
  | nil =>
    intro tbl next links _ _ _ _ _ _
    simp [labelLoop]
  | cons nm rest ih =>
    intro tbl next links hnames hids hlt hllt hfresh hnd
    have hnm_rest : nm ∉ rest := (List.nodup_cons.1 hnd).1
    have hnd2 : rest.Nodup := (List.nodup_cons.1 hnd).2
    rcases hfind : tbl.find? (fun c => c.name == nm) with _ | c
    · have hg := getOrCreateLabel_created tbl next nm hfind
      have hins : insertLinkIgnore links rid next = links ++ [⟨rid, next⟩] :=
        insertLinkIgnore_not_present links rid next
          (fun l hl hp => absurd hp.2 (Nat.ne_of_lt (hllt l hl)))
      have hnew : ∀ x ∈ tbl, x.name ≠ nm := by
        intro x hx
        have := List.find?_eq_none.1 hfind x hx
        simpa using this
      have h1 : ((tbl ++ [(⟨next, nm⟩ : LabelRow)]).map LabelRow.name).Nodup := by
        rw [List.map_append, List.nodup_append]
        refine ⟨hnames, by simp, ?_⟩
        intro a ha hb
        simp only [List.map_cons, List.map_nil, List.mem_singleton] at hb
        subst hb
        obtain ⟨x, hx, hxn⟩ := List.mem_map.1 ha
        exact hnew x hx hxn
      have h2 : ((tbl ++ [(⟨next, nm⟩ : LabelRow)]).map LabelRow.id).Nodup := by
        rw [List.map_append, List.nodup_append]
        refine ⟨hids, by simp, ?_⟩
        intro a ha hb
        simp only [List.map_cons, List.map_nil, List.mem_singleton] at hb
        subst hb
        obtain ⟨x, hx, hxn⟩ := List.mem_map.1 ha
        have := hlt x hx
        omega
      have h3 : ∀ x ∈ tbl ++ [(⟨next, nm⟩ : LabelRow)], x.id < next + 1 := by
        intro x hx
        rcases List.mem_append.1 hx with h | h
        · exact Nat.lt_succ_of_lt (hlt x h)
        · simp only [List.mem_singleton] at h
          subst h
          exact Nat.lt_succ_self _
      have h4 : ∀ l ∈ links ++ [(⟨rid, next⟩ : LinkRow)],
          l.label_id < next + 1 := by
        intro l hl
        rcases List.mem_append.1 hl with h | h
        · exact Nat.lt_succ_of_lt (hllt l h)
        · simp only [List.mem_singleton] at h
          subst h
          exact Nat.lt_succ_self _
      have h5 : ∀ x ∈ tbl ++ [(⟨next, nm⟩ : LabelRow)], x.name ∈ rest →
          ∀ l ∈ links ++ [(⟨rid, next⟩ : LinkRow)],
            ¬(l.recipe_id = rid ∧ l.label_id = x.id) := by
        intro x hx hxr l hl
        rcases List.mem_append.1 hx with hxt | hxn
        · rcases List.mem_append.1 hl with hll | hln
          · exact hfresh x hxt (List.mem_cons_of_mem _ hxr) l hll
          · simp only [List.mem_singleton] at hln
            subst hln
            intro hpair
            have hlab : next = x.id := hpair.2
            have := hlt x hxt
            omega
        · simp only [List.mem_singleton] at hxn
          subst hxn
          intro _
          exact hnm_rest hxr
      have hIH := ih (tbl ++ [⟨next, nm⟩]) (next + 1) (links ++ [⟨rid, next⟩])
        h1 h2 h3 h4 h5 hnd2
      simp only [labelLoop, hg, hins]
      rw [hIH]
      rw [labelNamesOf_append_link,
        labelNamesOf_grow_tbl links tbl rid ⟨next, nm⟩
          (fun l hl => Nat.ne_of_lt (hllt l hl)),
        resolve_created tbl next nm hlt]
      simp
    · have hg := getOrCreateLabel_found tbl next nm c hfind
      have hcmem : c ∈ tbl := List.mem_of_find?_eq_some hfind
      have hcnm : c.name = nm := by
        have := List.find?_some hfind
        simpa using this
      have hins : insertLinkIgnore links rid c.id = links ++ [⟨rid, c.id⟩] :=
        insertLinkIgnore_not_present links rid c.id
          (fun l hl => hfresh c hcmem
            (by rw [hcnm]; exact List.mem_cons_self _ _) l hl)
      have h4 : ∀ l ∈ links ++ [(⟨rid, c.id⟩ : LinkRow)],
          l.label_id < next := by
        intro l hl
        rcases List.mem_append.1 hl with h | h
        · exact hllt l h
        · simp only [List.mem_singleton] at h
          subst h
          exact hlt c hcmem
      have h5 : ∀ x ∈ tbl, x.name ∈ rest →
          ∀ l ∈ links ++ [(⟨rid, c.id⟩ : LinkRow)],
            ¬(l.recipe_id = rid ∧ l.label_id = x.id) := by
        intro x hx hxr l hl
        rcases List.mem_append.1 hl with hll | hln
        · exact hfresh x hx (List.mem_cons_of_mem _ hxr) l hll
        · simp only [List.mem_singleton] at hln
          subst hln
          intro hpair
          have hcx : c.id = x.id := hpair.2
          have hx_eq : x = c := List.inj_on_of_nodup_map hids hx hcmem hcx.symm
          rw [hx_eq, hcnm] at hxr
          exact hnm_rest hxr
      have hIH := ih tbl next (links ++ [⟨rid, c.id⟩]) hnames hids hlt h4 h5 hnd2
      simp only [labelLoop, hg, hins]
      rw [hIH]
      rw [labelNamesOf_append_link, resolve_found tbl c hids hcmem]
      simp [hcnm]

/-- Membership form of the loop lemma: without any assumption on the
supplied name list, a name appears in the joined list after the loop iff it
appeared before or is one of the supplied names. -/
theorem labelLoop_names_mem (rid : Nat) :
    ∀ (cl : List String) (tbl : List LabelRow) (next : Nat)
      (links : List LinkRow),
      (tbl.map LabelRow.id).Nodup →
      (∀ c ∈ tbl, c.id < next) →
      (∀ l ∈ links, l.label_id < next) →
      ∀ n : String,
        (n ∈ labelNamesOf (labelLoop rid cl (tbl, next, links)).2.2
            (labelLoop rid cl (tbl, next, links)).1 rid
          ↔ n ∈ labelNamesOf links tbl rid ∨ n ∈ cl) := by
  intro cl
  induction cl with
  | nil =>
    intro tbl next links _ _ _ n
    simp [labelLoop]
  | cons nm rest ih =>
    intro tbl next links hids hlt hllt n
    rcases hfind : tbl.find? (fun c => c.name == nm) with _ | c
    · have hg := getOrCreateLabel_created tbl next nm hfind
      have hins : insertLinkIgnore links rid next = links ++ [⟨rid, next⟩] :=
        insertLinkIgnore_not_present links rid next
          (fun l hl hp => absurd hp.2 (Nat.ne_of_lt (hllt l hl)))
      have h2 : ((tbl ++ [(⟨next, nm⟩ : LabelRow)]).map LabelRow.id).Nodup := by
        rw [List.map_append, List.nodup_append]
        refine ⟨hids, by simp, ?_⟩
        intro a ha hb
        simp only [List.map_cons, List.map_nil, List.mem_singleton] at hb
        subst hb
        obtain ⟨x, hx, hxn⟩ := List.mem_map.1 ha
        have := hlt x hx
        omega
      have h3 : ∀ x ∈ tbl ++ [(⟨next, nm⟩ : LabelRow)], x.id < next + 1 := by
        intro x hx
        rcases List.mem_append.1 hx with h | h
        · exact Nat.lt_succ_of_lt (hlt x h)
        · simp only [List.mem_singleton] at h
          subst h
          exact Nat.lt_succ_self _
      have h4 : ∀ l ∈ links ++ [(⟨rid, next⟩ : LinkRow)],
          l.label_id < next + 1 := by
        intro l hl
        rcases List.mem_append.1 hl with h | h
        · exact Nat.lt_succ_of_lt (hllt l h)
        · simp only [List.mem_singleton] at h
          subst h
          exact Nat.lt_succ_self _
      have hIH := ih (tbl ++ [⟨next, nm⟩]) (next + 1) (links ++ [⟨rid, next⟩])
        h2 h3 h4 n
      simp only [labelLoop, hg, hins]
      rw [hIH]
      rw [labelNamesOf_append_link,
        labelNamesOf_grow_tbl links tbl rid ⟨next, nm⟩
          (fun l hl => Nat.ne_of_lt (hllt l hl)),
        resolve_created tbl next nm hlt]
      simp only [List.mem_append, List.mem_singleton, List.mem_cons]
      tauto
    · have hg := getOrCreateLabel_found tbl next nm c hfind
      have hcmem : c ∈ tbl := List.mem_of_find?_eq_some hfind
      have hcnm : c.name = nm := by
        have := List.find?_some hfind
        simpa using this
      by_cases hpres : ∃ l ∈ links, l.recipe_id = rid ∧ l.label_id = c.id
      · have hins : insertLinkIgnore links rid c.id = links :=
          insertLinkIgnore_present links rid c.id hpres
        have hnm_old : nm ∈ labelNamesOf links tbl rid := by
          obtain ⟨l, hl, hp1, hp2⟩ := hpres
          rw [labelNamesOf]
          refine List.mem_flatMap.2
            ⟨l, List.mem_filter.2 ⟨hl, by simp [hp1]⟩, ?_⟩
          exact List.mem_map.2
            ⟨c, List.mem_filter.2 ⟨hcmem, by simp [hp2]⟩, hcnm⟩
        have hIH := ih tbl next links hids hlt hllt n
        simp only [labelLoop, hg, hins]
        rw [hIH]
        simp only [List.mem_cons]
        constructor
        · rintro (h | h)
          · exact Or.inl h
          · exact Or.inr (Or.inr h)
        · rintro (h | h | h)
          · exact Or.inl h
          · exact Or.inl (by rw [h]; exact hnm_old)
          · exact Or.inr h
      · have hins : insertLinkIgnore links rid c.id = links ++ [⟨rid, c.id⟩] :=
          insertLinkIgnore_not_present links rid c.id
            (fun l hl hp => hpres ⟨l, hl, hp⟩)
        have h4 : ∀ l ∈ links ++ [(⟨rid, c.id⟩ : LinkRow)],
            l.label_id < next := by
          intro l hl
          rcases List.mem_append.1 hl with h | h
          · exact hllt l h
          · simp only [List.mem_singleton] at h
            subst h
            exact hlt c hcmem
        have hIH := ih tbl next (links ++ [⟨rid, c.id⟩]) hids hlt h4 n
        simp only [labelLoop, hg, hins]
        rw [hIH]
        rw [labelNamesOf_append_link, resolve_found tbl c hids hcmem]
        simp only [List.mem_append, List.mem_singleton, List.mem_cons, hcnm]
        tauto

/-- The joined ingredient rows of a recipe whose links were all deleted. -/
theorem ingRowsOf_erased (links : List RecipeIngredientRow)
    (tbl : List IngredientRow) (rid : Nat) :
    ingRowsOf (links.filter (fun l => l.recipe_id ≠ rid)) tbl rid = [] := by
  rw [ingRowsOf]
  have h : (links.filter (fun l => l.recipe_id ≠ rid)).filter
      (fun l => l.recipe_id == rid) = [] := by
    apply List.filter_eq_nil_iff.2
    intro x hx
    have := (List.mem_filter.1 hx).2
    simp at this
    simp [this]
  rw [h]
  rfl

/-- The joined category or tag names of a recipe whose links were all
deleted. -/
theorem labelNamesOf_erased (links : List LinkRow) (tbl : List LabelRow)
    (rid : Nat) :
    labelNamesOf (links.filter (fun l => l.recipe_id ≠ rid)) tbl rid = [] := by
  rw [labelNamesOf]
  have h : (links.filter (fun l => l.recipe_id ≠ rid)).filter
      (fun l => l.recipe_id == rid) = [] := by
    apply List.filter_eq_nil_iff.2
    intro x hx
    have := (List.mem_filter.1 hx).2
    simp at this
    simp [this]
  rw [h]
  rfl

/-- Appending a recipe_ingredients link appends the resolution of its
ingredient id, carrying the quantity, unit and notes of the link. -/
theorem ingRowsOf_append_link (links : List RecipeIngredientRow)
    (tbl : List IngredientRow) (rid iid : Nat) (q : Qty) (u nts : String) :
    ingRowsOf (links ++ [⟨rid, iid, q, u, nts⟩]) tbl rid
      = ingRowsOf links tbl rid
        ++ (tbl.filter (fun i => i.id == iid)).map (fun i =>
            (⟨i.id, i.name, q, u, nts, i.category⟩ : IngredientOut)) := by
  rw [ingRowsOf, ingRowsOf, List.filter_append, List.flatMap_append]
  simp

/-- An ingredient row none of the links reference does not change the
join. -/
theorem ingRowsOf_grow_tbl (links : List RecipeIngredientRow)
    (tbl : List IngredientRow) (rid : Nat) (row : IngredientRow)
    (hb : ∀ l ∈ links, l.ingredient_id ≠ row.id) :
    ingRowsOf links (tbl ++ [row]) rid = ingRowsOf links tbl rid := by
  rw [ingRowsOf, ingRowsOf]
  have hgen : ∀ L : List RecipeIngredientRow,
      (∀ l ∈ L, l.ingredient_id ≠ row.id) →
      L.flatMap (fun ri =>
        ((tbl ++ [row]).filter (fun i => i.id == ri.ingredient_id)).map
          (fun i =>
            (⟨i.id, i.name, ri.quantity, ri.unit, ri.notes, i.category⟩ :
              IngredientOut)))
      = L.flatMap (fun ri =>
          (tbl.filter (fun i => i.id == ri.ingredient_id)).map (fun i =>
            (⟨i.id, i.name, ri.quantity, ri.unit, ri.notes, i.category⟩ :
              IngredientOut))) := by
    intro L
    induction L with
    | nil => intro _; rfl
    | cons l rest ihL =>
      intro hL
      rw [List.flatMap_cons, List.flatMap_cons,
        ihL (fun x hx => hL x (List.mem_cons_of_mem _ hx))]
      have hrow : (row.id == l.ingredient_id) = false := by
        simp only [beq_eq_false_iff_ne, ne_eq]
        exact fun he => hL l (List.mem_cons_self _ _) he.symm
      rw [List.filter_append]
      simp [List.filter_cons, hrow]
  exact hgen _ (fun l hl => hb l (List.mem_of_mem_filter hl))

/-- getOrCreateIngredient when the SELECT finds a row. -/
theorem getOrCreateIngredient_found (tbl : List IngredientRow) (next : Nat)
    (nm cat unit : String) (i : IngredientRow)
    (hfind : tbl.find? (fun x => x.name == nm) = some i) :
    getOrCreateIngredient tbl next nm cat unit = ((tbl, next), i.id) := by
  rw [getOrCreateIngredient, hfind]

/-- getOrCreateIngredient when the SELECT finds nothing. -/
theorem getOrCreateIngredient_created (tbl : List IngredientRow) (next : Nat)
    (nm cat unit : String)
    (hfind : tbl.find? (fun x => x.name == nm) = none) :
    getOrCreateIngredient tbl next nm cat unit
      = ((tbl ++ [⟨next, nm, cat, unit⟩], next + 1), next) := by
  rw [getOrCreateIngredient, hfind]

/-- A successful run of the ingredient loop appends exactly the supplied
(name, quantity, unit) triples to the recipe's joined ingredient rows. -/
theorem addIngredientsLoop_ok_spec (rid : Nat) :
    ∀ (ings : List IngredientData) (s s2 : Store),
      (s.ingredients.map IngredientRow.id).Nodup →
      (∀ i ∈ s.ingredients, i.id < s.next_ingredient_id) →
      (∀ l ∈ s.recipe_ingredients,
        l.ingredient_id < s.next_ingredient_id) →
      addIngredientsLoop s rid ings = .ok s2 →
      (ingRowsOf s2.recipe_ingredients s2.ingredients rid).map
          (fun o => (o.name, o.quantity, o.unit))
        = (ingRowsOf s.recipe_ingredients s.ingredients rid).map
            (fun o => (o.name, o.quantity, o.unit))
          ++ ings.map (fun g => (g.name.getD "", g.quantity, g.unit)) := by
  intro ings
  induction ings with
  | nil =>
    intro s s2 _ _ _ h
    simp only [addIngredientsLoop, Except.ok.injEq] at h
    subst h
    simp
  | cons g rest ih =>
    intro s s2 hids hlt hllt h
    rcases hnm : g.name with _ | nm
    · simp [addIngredientsLoop, hnm] at h
    · simp only [addIngredientsLoop, hnm] at h
      rcases hfind : s.ingredients.find? (fun x => x.name == nm) with _ | i
      · have hg := getOrCreateIngredient_created s.ingredients
          s.next_ingredient_id nm g.category g.unit hfind
        simp only [hg] at h
        have hdup : s.recipe_ingredients.any (fun l =>
            l.recipe_id == rid && l.ingredient_id == s.next_ingredient_id)
            = false := by
          apply List.any_eq_false.2
          intro l hl
          simp only [Bool.and_eq_true, beq_iff_eq, not_and]
          intro _ he
          exact absurd he (Nat.ne_of_lt (hllt l hl))
        rw [hdup] at h
        simp only [Bool.false_eq_true, if_false] at h
        have h2 : ((s.ingredients
            ++ [(⟨s.next_ingredient_id, nm, g.category, g.unit⟩ :
              IngredientRow)]).map IngredientRow.id).Nodup := by
          rw [List.map_append, List.nodup_append]
          refine ⟨hids, by simp, ?_⟩
          intro a ha hb
          simp only [List.map_cons, List.map_nil, List.mem_singleton] at hb
          subst hb
          obtain ⟨x, hx, hxn⟩ := List.mem_map.1 ha
          have := hlt x hx
          omega
        have h3 : ∀ x ∈ s.ingredients
            ++ [(⟨s.next_ingredient_id, nm, g.category, g.unit⟩ :
              IngredientRow)], x.id < s.next_ingredient_id + 1 := by
          intro x hx
          rcases List.mem_append.1 hx with hh | hh
          · exact Nat.lt_succ_of_lt (hlt x hh)
          · simp only [List.mem_singleton] at hh
            subst hh
            exact Nat.lt_succ_self _
        have h4 : ∀ l ∈ s.recipe_ingredients
            ++ [(⟨rid, s.next_ingredient_id, g.quantity, g.unit, g.notes⟩ :
              RecipeIngredientRow)],
            l.ingredient_id < s.next_ingredient_id + 1 := by
          intro l hl
          rcases List.mem_append.1 hl with hh | hh
          · exact Nat.lt_succ_of_lt (hllt l hh)
          · simp only [List.mem_singleton] at hh
            subst hh
            exact Nat.lt_succ_self _
        have hIH : (ingRowsOf s2.recipe_ingredients s2.ingredients rid).map
            (fun o => (o.name, o.quantity, o.unit))
            = (ingRowsOf
                (s.recipe_ingredients
                  ++ [⟨rid, s.next_ingredient_id, g.quantity, g.unit,
                    g.notes⟩])
                (s.ingredients
                  ++ [⟨s.next_ingredient_id, nm, g.category, g.unit⟩])
                rid).map (fun o => (o.name, o.quantity, o.unit))
              ++ rest.map (fun g2 => (g2.name.getD "", g2.quantity, g2.unit)) :=
          ih _ s2 h2 h3 h4 h
        rw [hIH, ingRowsOf_append_link,
          ingRowsOf_grow_tbl s.recipe_ingredients s.ingredients rid
            ⟨s.next_ingredient_id, nm, g.category, g.unit⟩
            (fun l hl => Nat.ne_of_lt (hllt l hl)),
          List.filter_append,
          filter_key_nil IngredientRow.id s.ingredients s.next_ingredient_id
            (fun x hx => Nat.ne_of_lt (hlt x hx))]
        simp [hnm]
      · have hg := getOrCreateIngredient_found s.ingredients
          s.next_ingredient_id nm g.category g.unit i hfind
        simp only [hg] at h
        have himem : i ∈ s.ingredients := List.mem_of_find?_eq_some hfind
        have hinm : i.name = nm := by
          have := List.find?_some hfind
          simpa using this
        by_cases hdup : s.recipe_ingredients.any (fun l =>
            l.recipe_id == rid && l.ingredient_id == i.id) = true
        · rw [if_pos hdup] at h
          simp at h
        · rw [if_neg hdup] at h
          have h4 : ∀ l ∈ s.recipe_ingredients
              ++ [(⟨rid, i.id, g.quantity, g.unit, g.notes⟩ :
                RecipeIngredientRow)],
              l.ingredient_id < s.next_ingredient_id := by
            intro l hl
            rcases List.mem_append.1 hl with hh | hh
            · exact hllt l hh
            · simp only [List.mem_singleton] at hh
              subst hh
              exact hlt i himem
          have hIH : (ingRowsOf s2.recipe_ingredients s2.ingredients rid).map
              (fun o => (o.name, o.quantity, o.unit))
              = (ingRowsOf
                  (s.recipe_ingredients
                    ++ [⟨rid, i.id, g.quantity, g.unit, g.notes⟩])
                  s.ingredients rid).map
                    (fun o => (o.name, o.quantity, o.unit))
                ++ rest.map (fun g2 =>
                    (g2.name.getD "", g2.quantity, g2.unit)) :=
            ih { s with
                  ingredients := s.ingredients
                  next_ingredient_id := s.next_ingredient_id
                  recipe_ingredients := s.recipe_ingredients
                    ++ [⟨rid, i.id, g.quantity, g.unit, g.notes⟩] }
              s2 hids hlt h4 h
          rw [hIH, ingRowsOf_append_link,
            filter_key_singleton IngredientRow.id s.ingredients hids i himem]
          simp [hnm, hinm]

/-- The ingredient loop succeeds when every entry has a name, the supplied
names are pairwise distinct, and no supplied name is already linked to the
recipe. -/
theorem addIngredientsLoop_total (rid : Nat) :
    ∀ (ings : List IngredientData) (s : Store),
      (s.ingredients.map IngredientRow.id).Nodup →
      (∀ i ∈ s.ingredients, i.id < s.next_ingredient_id) →
      (∀ l ∈ s.recipe_ingredients,
        l.ingredient_id < s.next_ingredient_id) →
      (∀ g ∈ ings, g.name.isSome) →
      (ings.map IngredientData.name).Nodup →
      (∀ i ∈ s.ingredients, some i.name ∈ ings.map IngredientData.name →
        ∀ l ∈ s.recipe_ingredients,
          ¬(l.recipe_id = rid ∧ l.ingredient_id = i.id)) →
      ∃ s2, addIngredientsLoop s rid ings = .ok s2 := by
  intro ings
  induction ings with
  | nil =>
    intro s _ _ _ _ _ _
    exact ⟨s, rfl⟩
  | cons g rest ih =>
    intro s hids hlt hllt hsome hnd hfresh
    have hndc : (g.name :: rest.map IngredientData.name).Nodup := by
      simpa using hnd
    have hnd1 : g.name ∉ rest.map IngredientData.name :=
      (List.nodup_cons.1 hndc).1
    have hnd2 : (rest.map IngredientData.name).Nodup :=
      (List.nodup_cons.1 hndc).2
    have h5 : ∀ g2 ∈ rest, g2.name.isSome :=
      fun g2 hg2 => hsome g2 (List.mem_cons_of_mem _ hg2)
    rcases hnm : g.name with _ | nm
    · exact absurd (hnm ▸ hsome g (List.mem_cons_self _ _)) (by simp)
    · rcases hfind : s.ingredients.find? (fun x => x.name == nm) with _ | i
      · have hg := getOrCreateIngredient_created s.ingredients
          s.next_ingredient_id nm g.category g.unit hfind
        have hdup : s.recipe_ingredients.any (fun l =>
            l.recipe_id == rid && l.ingredient_id == s.next_ingredient_id)
            = false := by
          apply List.any_eq_false.2
          intro l hl
          simp only [Bool.and_eq_true, beq_iff_eq, not_and]
          intro _ he
          exact absurd he (Nat.ne_of_lt (hllt l hl))
        have h2 : ((s.ingredients
            ++ [(⟨s.next_ingredient_id, nm, g.category, g.unit⟩ :
              IngredientRow)]).map IngredientRow.id).Nodup := by
          rw [List.map_append, List.nodup_append]
          refine ⟨hids, by simp, ?_⟩
          intro a ha hb
          simp only [List.map_cons, List.map_nil, List.mem_singleton] at hb
          subst hb
          obtain ⟨x, hx, hxn⟩ := List.mem_map.1 ha
          have := hlt x hx
          omega
        have h3 : ∀ x ∈ s.ingredients
            ++ [(⟨s.next_ingredient_id, nm, g.category, g.unit⟩ :
              IngredientRow)], x.id < s.next_ingredient_id + 1 := by
          intro x hx
          rcases List.mem_append.1 hx with hh | hh
          · exact Nat.lt_succ_of_lt (hlt x hh)
          · simp only [List.mem_singleton] at hh
            subst hh
            exact Nat.lt_succ_self _
        have h4 : ∀ l ∈ s.recipe_ingredients
            ++ [(⟨rid, s.next_ingredient_id, g.quantity, g.unit, g.notes⟩ :
              RecipeIngredientRow)],
            l.ingredient_id < s.next_ingredient_id + 1 := by
          intro l hl
          rcases List.mem_append.1 hl with hh | hh
          · exact Nat.lt_succ_of_lt (hllt l hh)
          · simp only [List.mem_singleton] at hh
            subst hh
            exact Nat.lt_succ_self _
        have h6 : ∀ i2 ∈ s.ingredients
            ++ [(⟨s.next_ingredient_id, nm, g.category, g.unit⟩ :
              IngredientRow)],
            some i2.name ∈ rest.map IngredientData.name →
            ∀ l ∈ s.recipe_ingredients
              ++ [(⟨rid, s.next_ingredient_id, g.quantity, g.unit,
                g.notes⟩ : RecipeIngredientRow)],
              ¬(l.recipe_id = rid ∧ l.ingredient_id = i2.id) := by
          intro i2 hi2 hmemn l hl
          rcases List.mem_append.1 hi2 with hit | hin
          · rcases List.mem_append.1 hl with hlo | hln
            · exact hfresh i2 hit (by
                simp only [List.map_cons]
                exact List.mem_cons_of_mem _ hmemn) l hlo
            · simp only [List.mem_singleton] at hln
              subst hln
              intro hpair
              have hlab : s.next_ingredient_id = i2.id := hpair.2
              have := hlt i2 hit
              omega
          · simp only [List.mem_singleton] at hin
            subst hin
            intro _
            have hx : some nm ∈ rest.map IngredientData.name := hmemn
            rw [hnm] at hnd1
            exact hnd1 hx
        obtain ⟨s2, hs2⟩ := ih
          { s with
              ingredients := s.ingredients
                ++ [⟨s.next_ingredient_id, nm, g.category, g.unit⟩]
              next_ingredient_id := s.next_ingredient_id + 1
              recipe_ingredients := s.recipe_ingredients
                ++ [⟨rid, s.next_ingredient_id, g.quantity, g.unit,
                  g.notes⟩] }
          h2 h3 h4 h5 hnd2 h6
        refine ⟨s2, ?_⟩
        simp only [addIngredientsLoop, hnm, hg]
        rw [hdup]
        simp only [Bool.false_eq_true, if_false]
        exact hs2
      · have hg := getOrCreateIngredient_found s.ingredients
          s.next_ingredient_id nm g.category g.unit i hfind
        have himem : i ∈ s.ingredients := List.mem_of_find?_eq_some hfind
        have hinm : i.name = nm := by
          have := List.find?_some hfind
          simpa using this
        have hmemn : some i.name ∈ (g :: rest).map IngredientData.name := by
          simp only [List.map_cons]
          rw [hinm, ← hnm]
          exact List.mem_cons_self _ _
        have hdup : s.recipe_ingredients.any (fun l =>
            l.recipe_id == rid && l.ingredient_id == i.id) = false := by
          apply List.any_eq_false.2
          intro l hl
          simp only [Bool.and_eq_true, beq_iff_eq, not_and]
          intro hp1 hp2
          exact hfresh i himem hmemn l hl ⟨hp1, hp2⟩
        have h4 : ∀ l ∈ s.recipe_ingredients
            ++ [(⟨rid, i.id, g.quantity, g.unit, g.notes⟩ :
              RecipeIngredientRow)],
            l.ingredient_id < s.next_ingredient_id := by
          intro l hl
          rcases List.mem_append.1 hl with hh | hh
          · exact hllt l hh
          · simp only [List.mem_singleton] at hh
            subst hh
            exact hlt i himem
        have h6 : ∀ i2 ∈ s.ingredients,
            some i2.name ∈ rest.map IngredientData.name →
            ∀ l ∈ s.recipe_ingredients
              ++ [(⟨rid, i.id, g.quantity, g.unit, g.notes⟩ :
                RecipeIngredientRow)],
              ¬(l.recipe_id = rid ∧ l.ingredient_id = i2.id) := by
          intro i2 hi2 hmem2 l hl
          rcases List.mem_append.1 hl with hlo | hln
          · exact hfresh i2 hi2 (by
              simp only [List.map_cons]
              exact List.mem_cons_of_mem _ hmem2) l hlo
          · simp only [List.mem_singleton] at hln
            subst hln
            intro hpair
            have hii : i.id = i2.id := hpair.2
            have hieq : i2 = i :=
              List.inj_on_of_nodup_map hids hi2 himem hii.symm
            rw [hieq, hinm] at hmem2
            rw [hnm] at hnd1
            exact hnd1 hmem2
        obtain ⟨s2, hs2⟩ := ih
          { s with
              ingredients := s.ingredients
              next_ingredient_id := s.next_ingredient_id
              recipe_ingredients := s.recipe_ingredients
                ++ [⟨rid, i.id, g.quantity, g.unit, g.notes⟩] }
          hids hlt h4 h5 hnd2 h6
        refine ⟨s2, ?_⟩
        simp only [addIngredientsLoop, hnm, hg]
        rw [hdup]
        simp only [Bool.false_eq_true, if_false]
        exact hs2

/-- Composite-key uniqueness restricted to one recipe makes the second key
component unique. -/
theorem filtered_snd_nodup {α : Type _} (key1 key2 : α → Nat)
    (links : List α) (rid : Nat)
    (hpairs : (links.map (fun l => (key1 l, key2 l))).Nodup) :
    ((links.filter (fun l => key1 l == rid)).map key2).Nodup := by
  have hsub : List.Sublist (links.filter (fun l => key1 l == rid)) links :=
    List.filter_sublist links
  have hp2 : ((links.filter (fun l => key1 l == rid)).map
      (fun l => (key1 l, key2 l))).Nodup :=
    List.Nodup.sublist (List.Sublist.map _ hsub) hpairs
  have hfil : (links.filter (fun l => key1 l == rid)).Nodup :=
    List.Nodup.of_map _ hp2
  apply List.Nodup.map_on ?_ hfil
  intro x hx y hy hxy
  have hx1 : key1 x = rid := by simpa using (List.mem_filter.1 hx).2
  have hy1 : key1 y = rid := by simpa using (List.mem_filter.1 hy).2
  exact List.inj_on_of_nodup_map hp2 hx hy (by rw [hx1, hy1, hxy])

/-- The joined category / tag names of a recipe contain no duplicates when
the link pairs, the label ids and the label names are unique. -/
theorem labelNamesOf_nodup (links : List LinkRow) (tbl : List LabelRow)
    (rid : Nat)
    (hpairs : (links.map (fun l => (l.recipe_id, l.label_id))).Nodup)
    (hnames : (tbl.map LabelRow.name).Nodup) :
    (labelNamesOf links tbl rid).Nodup := by
  rw [labelNamesOf, List.nodup_flatMap]
  constructor
  · intro l hl
    exact List.Nodup.sublist
      (List.Sublist.map _ (List.filter_sublist tbl)) hnames
  · have hK := filtered_snd_nodup (fun l => l.recipe_id)
      (fun l => l.label_id) links rid hpairs
    have hpw : (links.filter (fun l => l.recipe_id == rid)).Pairwise
        (fun a b => a.label_id ≠ b.label_id) :=
      List.pairwise_map.1 hK
    refine List.Pairwise.imp ?_ hpw
    intro a b hne
    intro n hna hnb
    obtain ⟨c1, hc1, hc1n⟩ := List.mem_map.1 hna
    obtain ⟨c2, hc2, hc2n⟩ := List.mem_map.1 hnb
    have hc1m := List.mem_filter.1 hc1
    have hc2m := List.mem_filter.1 hc2
    have e1 : c1.id = a.label_id := by simpa using hc1m.2
    have e2 : c2.id = b.label_id := by simpa using hc2m.2
    have hcc : c1 = c2 :=
      List.inj_on_of_nodup_map hnames hc1m.1 hc2m.1 (by rw [hc1n, hc2n])
    exact hne (by rw [← e1, hcc, e2])

/-- The joined ingredient names of a recipe contain no duplicates when the
link pairs and the ingredient names are unique. -/
theorem ingRowsOf_names_nodup (links : List RecipeIngredientRow)
    (tbl : List IngredientRow) (rid : Nat)
    (hpairs : (links.map (fun l => (l.recipe_id, l.ingredient_id))).Nodup)
    (hnames : (tbl.map IngredientRow.name).Nodup) :
    ((ingRowsOf links tbl rid).map IngredientOut.name).Nodup := by
  rw [ingRowsOf, List.map_flatMap]
  simp only [List.map_map, Function.comp]
  rw [List.nodup_flatMap]
  constructor
  · intro l hl
    exact List.Nodup.sublist
      (List.Sublist.map _ (List.filter_sublist tbl)) hnames
  · have hK := filtered_snd_nodup (fun l => l.recipe_id)
      (fun l => l.ingredient_id) links rid hpairs
    have hpw : (links.filter (fun l => l.recipe_id == rid)).Pairwise
        (fun a b => a.ingredient_id ≠ b.ingredient_id) :=
      List.pairwise_map.1 hK
    refine List.Pairwise.imp ?_ hpw
    intro a b hne
    intro n hna hnb
    obtain ⟨c1, hc1, hc1n⟩ := List.mem_map.1 hna
    obtain ⟨c2, hc2, hc2n⟩ := List.mem_map.1 hnb
    have hc1m := List.mem_filter.1 hc1
    have hc2m := List.mem_filter.1 hc2
    have e1 : c1.id = a.ingredient_id := by simpa using hc1m.2
    have e2 : c2.id = b.ingredient_id := by simpa using hc2m.2
    have hb1 : c1.name = n := hc1n
    have hb2 : c2.name = n := hc2n
    have hcc : c1 = c2 :=
      List.inj_on_of_nodup_map hnames hc1m.1 hc2m.1 (by rw [hb1, hb2])
    exact hne (by rw [← e1, hcc, e2])

/-- A successful update_recipe run is the three link stages applied to the
store with overwritten scalars. -/
theorem update_recipe_ok_stages (s : Store) (rid : Nat) (d : RecipeData)
    (nm : String) (hnm : d.name = some nm) (s2 : Store)
    (h : update_recipe s rid d = .ok (s2, true)) :
    ingsStageUpd
      (tagsStageUpd
        (catsStageUpd { s with recipes := scalarOverwrite s rid nm d }
          rid d.categories)
        rid d.tags)
      rid d.ingredients = .ok s2 := by
  unfold update_recipe at h
  by_cases hex : s.recipes.any (fun r => r.id == rid) = true
  · rw [if_pos hex, hnm] at h
    simp only at h
    rcases hing : ingsStageUpd
        (tagsStageUpd
          (catsStageUpd { s with recipes := scalarOverwrite s rid nm d }
            rid d.categories)
          rid d.tags)
        rid d.ingredients with e | s4
    · rw [hing] at h
      simp [Except.map] at h
    · rw [hing] at h
      simp only [Except.map, Except.ok.injEq, Prod.mk.injEq] at h
      obtain ⟨h1, _⟩ := h
      rw [h1]
  · rw [if_neg hex] at h
    simp at h

/-- Claim C4: for an existing recipe id, update_recipe treats each of the
categories / tags / ingredients field groups by key presence: an absent key
leaves the group's associations exactly as they were, while a present key
(empty list included) deletes all of the recipe's links for that group and
reinserts exactly the supplied entries -- so 'categories': [] clears the
category associations, and a name n is associated after the update iff it
was supplied. -/
theorem update_recipe_field_group_semantics (s : Store) (hwf : WF s)
    (rid : Nat) (d : RecipeData) (s2 : Store)
    (h : update_recipe s rid d = .ok (s2, true)) :
    (d.categories = none → s2.recipe_categories = s.recipe_categories ∧
      recipeCategoryNames s2 rid = recipeCategoryNames s rid) ∧
    (∀ cl, d.categories = some cl →
      ∀ n, n ∈ recipeCategoryNames s2 rid ↔ n ∈ cl) ∧
    (d.tags = none → s2.recipe_tags = s.recipe_tags ∧
      recipeTagNames s2 rid = recipeTagNames s rid) ∧
    (∀ tl, d.tags = some tl →
      ∀ n, n ∈ recipeTagNames s2 rid ↔ n ∈ tl) ∧
    (d.ingredients = none →
      s2.recipe_ingredients = s.recipe_ingredients ∧
      recipeIngredientsOf s2 rid = recipeIngredientsOf s rid) ∧
    (∀ ings, d.ingredients = some ings →
      (recipeIngredientsOf s2 rid).map (fun o => (o.name, o.quantity, o.unit))
        = ings.map (fun g => (g.name.getD "", g.quantity, g.unit))) := by
  rcases hdn : d.name with _ | nm
  · exfalso
    unfold update_recipe at h
    by_cases hex : s.recipes.any (fun r => r.id == rid) = true
    · rw [if_pos hex, hdn] at h
      simp at h
    · rw [if_neg hex] at h
      simp at h
  · have hstage := update_recipe_ok_stages s rid d nm hdn s2 h
    set u1 : Store := { s with recipes := scalarOverwrite s rid nm d }
      with hu1
    set u2 : Store := catsStageUpd u1 rid d.categories with hu2
    set u3 : Store := tagsStageUpd u2 rid d.tags with hu3
    have hing : ingsStageUpd u3 rid d.ingredients = .ok s2 := hstage
    have hcf := catsStageUpd_frame rid d.categories u1
    rw [← hu2] at hcf
    obtain ⟨hc1, hc2, hc3, hc4, hc5, hc6, hc7, hc8, hc9, hc10, hc11, hc12⟩
      := hcf
    have htf := tagsStageUpd_frame rid d.tags u2
    rw [← hu3] at htf
    obtain ⟨ht1, ht2, ht3, ht4, ht5, ht6, ht7, ht8, ht9, ht10, ht11, ht12⟩
      := htf
    obtain ⟨hi1, hi2, hi3, hi4, hi5, hi6, hi7, hi8, hi9, hi10, hi11, hi12⟩
      := ingsStageUpd_frame rid d.ingredients u3 s2 hing
    refine ⟨?_, ?_, ?_, ?_, ?_, ?_⟩
    · intro hco
      have hu2n : u2 = u1 := by
        rw [hu2, hco]
        rfl
      constructor
      · rw [hi4, ht4, hu2n, hu1]
      · rw [recipeCategoryNames, recipeCategoryNames, hi4, ht4, hi2, ht2,
          hu2n, hu1]
    · intro cl hco n
      have hrc2 : s2.recipe_categories
          = (labelLoop rid cl (s.categories, s.next_category_id,
              s.recipe_categories.filter
                (fun l => l.recipe_id ≠ rid))).2.2 := by
        rw [hi4, ht4, hu2, hco, hu1]
        rfl
      have hcat2 : s2.categories
          = (labelLoop rid cl (s.categories, s.next_category_id,
              s.recipe_categories.filter
                (fun l => l.recipe_id ≠ rid))).1 := by
        rw [hi2, ht2, hu2, hco, hu1]
        rfl
      have hm := labelLoop_names_mem rid cl s.categories s.next_category_id
        (s.recipe_categories.filter (fun l => l.recipe_id ≠ rid))
        hwf.cat_ids hwf.cat_lt
        (fun l hl => hwf.rc_lt l (List.mem_of_mem_filter hl)) n
      rw [labelNamesOf_erased] at hm
      rw [recipeCategoryNames, hrc2, hcat2]
      simpa using hm
    · intro hto
      have hu3n : u3 = u2 := by
        rw [hu3, hto]
        rfl
      constructor
      · rw [hi5, hu3n, hc4, hu1]
      · rw [recipeTagNames, recipeTagNames, hi5, hi3, hu3n, hc4, hc2, hu1]
    · intro tl hto n
      have e_t : u2.tags = s.tags := by rw [hc2, hu1]
      have e_nt : u2.next_tag_id = s.next_tag_id := by rw [hc9, hu1]
      have e_rt : u2.recipe_tags = s.recipe_tags := by rw [hc4, hu1]
      have hrt2 : s2.recipe_tags
          = (labelLoop rid tl (s.tags, s.next_tag_id,
              s.recipe_tags.filter (fun l => l.recipe_id ≠ rid))).2.2 := by
        rw [hi5, hu3, hto]
        rw [show (tagsStageUpd u2 rid (some tl)).recipe_tags
            = (labelLoop rid tl (u2.tags, u2.next_tag_id,
                u2.recipe_tags.filter (fun l => l.recipe_id ≠ rid))).2.2
          from rfl]
        rw [e_t, e_nt, e_rt]
      have htag2 : s2.tags
          = (labelLoop rid tl (s.tags, s.next_tag_id,
              s.recipe_tags.filter (fun l => l.recipe_id ≠ rid))).1 := by
        rw [hi3, hu3, hto]
        rw [show (tagsStageUpd u2 rid (some tl)).tags
            = (labelLoop rid tl (u2.tags, u2.next_tag_id,
                u2.recipe_tags.filter (fun l => l.recipe_id ≠ rid))).1
          from rfl]
        rw [e_t, e_nt, e_rt]
      have hm := labelLoop_names_mem rid tl s.tags s.next_tag_id
        (s.recipe_tags.filter (fun l => l.recipe_id ≠ rid))
        hwf.tag_ids hwf.tag_lt
        (fun l hl => hwf.rt_lt l (List.mem_of_mem_filter hl)) n
      rw [labelNamesOf_erased] at hm
      rw [recipeTagNames, hrt2, htag2]
      simpa using hm
    · intro hio
      have hs2u3 : s2 = u3 := by
        have h0 := hing
        rw [hio] at h0
        simp only [ingsStageUpd, Except.ok.injEq] at h0
        exact h0.symm
      constructor
      · rw [hs2u3, ht5, hc5, hu1]
      · rw [recipeIngredientsOf, recipeIngredientsOf, hs2u3, ht5, hc5,
          ht3, hc3, hu1]
    · intro ings hio
      have hing2 := hing
      rw [hio] at hing2
      simp only [ingsStageUpd] at hing2
      have e_ing : u3.ingredients = s.ingredients := by rw [ht3, hc3, hu1]
      have e_ri : u3.recipe_ingredients = s.recipe_ingredients := by
        rw [ht5, hc5, hu1]
      have e_nx : u3.next_ingredient_id = s.next_ingredient_id := by
        rw [ht10, hc10, hu1]
      have hids2 : (u3.ingredients.map IngredientRow.id).Nodup := by
        rw [e_ing]
        exact hwf.ing_ids
      have hlt2 : ∀ i ∈ u3.ingredients, i.id < u3.next_ingredient_id := by
        rw [e_ing, e_nx]
        exact hwf.ing_lt
      have hllt2 : ∀ l ∈ u3.recipe_ingredients.filter
          (fun l => l.recipe_id ≠ rid),
          l.ingredient_id < u3.next_ingredient_id := by
        rw [e_ri, e_nx]
        exact fun l hl => hwf.ri_lt l (List.mem_of_mem_filter hl)
      have hspec : (ingRowsOf s2.recipe_ingredients s2.ingredients rid).map
          (fun o => (o.name, o.quantity, o.unit))
          = (ingRowsOf
              (u3.recipe_ingredients.filter (fun l => l.recipe_id ≠ rid))
              u3.ingredients rid).map (fun o => (o.name, o.quantity, o.unit))
            ++ ings.map (fun g => (g.name.getD "", g.quantity, g.unit)) :=
        addIngredientsLoop_ok_spec rid ings
          { u3 with recipe_ingredients :=
            u3.recipe_ingredients.filter (fun l => l.recipe_id ≠ rid) }
          s2 hids2 hlt2 hllt2 hing2
      rw [e_ri, e_ing, ingRowsOf_erased] at hspec
      rw [recipeIngredientsOf]
      simpa using hspec

/-- A store with one recipe linked to one category, one tag and one
ingredient, used to witness the update_recipe field-group semantics. -/
def c4Store : Store :=
  { recipes := [⟨1, "Soup", "", "", 0, 0, 0, "", "", "", false⟩]
    categories := [⟨1, "Dinner"⟩]
    tags := [⟨1, "Quick"⟩]
    ingredients := [⟨1, "Flour", "", "g"⟩]
    recipe_categories := [⟨1, 1⟩]
    recipe_tags := [⟨1, 1⟩]
    recipe_ingredients := [⟨1, 1, 2, "g", ""⟩]
    shopping_lists := []
    shopping_list_items := []
    next_recipe_id := 2
    next_category_id := 2
    next_tag_id := 2
    next_ingredient_id := 2
    next_list_id := 1
    next_item_id := 1 }

/-- An update payload with the categories key present (a fresh name), the
tags key absent and the ingredients key bound to the empty list. -/
def c4Data : RecipeData :=
  { name := some "Stew"
    categories := some ["Lunch"]
    tags := none
    ingredients := some [] }

/-- The store produced by the witnessed update_recipe call. -/
def c4s2 : Store :=
  match update_recipe c4Store 1 c4Data with
  | .ok p => p.1
  | .error _ => c4Store

/-- Witness for C4 at a concrete store: updating recipe 1 with categories
present, tags absent and ingredients bound to [] keeps the tag links,
swaps the category association to the supplied name and clears the
ingredient associations. -/
theorem update_recipe_field_group_witness :
    WF c4Store ∧
    update_recipe c4Store 1 c4Data = .ok (c4s2, true) ∧
    ("Lunch" ∈ recipeCategoryNames c4s2 1 ↔ "Lunch" ∈ ["Lunch"]) ∧
    c4s2.recipe_tags = c4Store.recipe_tags ∧
    (recipeIngredientsOf c4s2 1).map (fun o => (o.name, o.quantity, o.unit))
      = ([] : List IngredientData).map
          (fun g => (g.name.getD "", g.quantity, g.unit)) := by
  have hwf : WF c4Store := by constructor <;> decide
  have h : update_recipe c4Store 1 c4Data = .ok (c4s2, true) := rfl
  have hthm := update_recipe_field_group_semantics c4Store hwf 1 c4Data c4s2 h
  exact ⟨hwf, h, hthm.2.1 ["Lunch"] rfl "Lunch", (hthm.2.2.1 rfl).1,
    hthm.2.2.2.2.2 [] rfl⟩

/-- A fresh database satisfies the reachable-store invariant. -/
theorem WF_freshStore : WF freshStore := by
  constructor <;> decide

/-- Running the category block of add_recipe over a store whose recipe has
no category links yet yields exactly the supplied names. -/
theorem catsStageAdd_names (u : Store) (rid : Nat) (cl : List String)
    (hnames : (u.categories.map LabelRow.name).Nodup)
    (hids : (u.categories.map LabelRow.id).Nodup)
    (hlt : ∀ c ∈ u.categories, c.id < u.next_category_id)
    (hrc : u.recipe_categories = [])
    (hnd : cl.Nodup) :
    recipeCategoryNames (catsStageAdd u rid (some cl)) rid = cl := by
  by_cases he : cl.isEmpty
  · have hcl : cl = [] := List.isEmpty_iff.1 he
    subst hcl
    simp only [catsStageAdd, List.isEmpty_nil, if_true]
    rw [recipeCategoryNames, hrc]
    rfl
  · have heq := labelLoop_names_eq rid cl u.categories u.next_category_id
      u.recipe_categories hnames hids hlt
      (by simp [hrc]) (by simp [hrc]) hnd
    have hnil : labelNamesOf u.recipe_categories u.categories rid = [] := by
      rw [hrc]
      rfl
    rw [hnil, List.nil_append] at heq
    simp only [catsStageAdd, if_neg he]
    exact heq

/-- Running the ingredient block of add_recipe over a store with no
ingredients and no ingredient links yields exactly the supplied
(name, quantity, unit) triples. -/
theorem ingsStageAdd_roundtrip (u : Store) (rid : Nat)
    (ings : List IngredientData)
    (hie : u.ingredients = []) (hre : u.recipe_ingredients = [])
    (hsome : ∀ g ∈ ings, g.name.isSome)
    (hnd : (ings.map IngredientData.name).Nodup) :
    ∃ s4, ingsStageAdd u rid (some ings) = .ok s4 ∧
      (recipeIngredientsOf s4 rid).map
          (fun o => (o.name, o.quantity, o.unit))
        = ings.map (fun g => (g.name.getD "", g.quantity, g.unit)) := by
  by_cases he : ings.isEmpty
  · have hi0 : ings = [] := List.isEmpty_iff.1 he
    subst hi0
    refine ⟨u, ?_, ?_⟩
    · simp [ingsStageAdd]
    · rw [recipeIngredientsOf, hre]
      rfl
  · obtain ⟨s4, hloop⟩ := addIngredientsLoop_total rid ings u
      (by rw [hie]; simp) (by simp [hie]) (by simp [hre]) hsome hnd
      (by simp [hie])
    have hspec := addIngredientsLoop_ok_spec rid ings u s4
      (by rw [hie]; simp) (by simp [hie]) (by simp [hre]) hloop
    refine ⟨s4, ?_, ?_⟩
    · simp only [ingsStageAdd, if_neg he]
      exact hloop
    · rw [hre] at hspec
      rw [recipeIngredientsOf]
      simpa [ingRowsOf] using hspec

/-- Claim C5: exporting any stored recipe and importing the produced JSON
into a fresh (empty) store succeeds and yields a recipe with the same name,
the same instructions, the same category list and the same ingredient
(name, quantity, unit) associations, under the fresh store's first recipe
id. -/
theorem export_import_roundtrip (s : Store) (hwf : WF s) (rid : Nat)
    (r : Recipe) (hget : get_recipe s rid = some r) :
    export_recipe_to_json s rid = some (.obj (recipeToData r)) ∧
    ∃ s4 r2,
      import_recipe_from_json freshStore (export_recipe_to_json s rid)
        = .imported s4 1 ∧
      get_recipe s4 1 = some r2 ∧
      r2.name = r.name ∧
      r2.instructions = r.instructions ∧
      r2.categories = r.categories ∧
      r2.ingredients.map (fun i => (i.name, i.quantity, i.unit))
        = r.ingredients.map (fun i => (i.name, i.quantity, i.unit)) := by
  have hexp : export_recipe_to_json s rid = some (.obj (recipeToData r)) := by
    rw [export_recipe_to_json, hget]
    rfl
  refine ⟨hexp, ?_⟩
  rw [get_recipe] at hget
  obtain ⟨row, hfindrow, hrowr⟩ := Option.map_eq_some'.1 hget
  have hrcat : r.categories = recipeCategoryNames s rid := by rw [← hrowr]
  have hring : r.ingredients = recipeIngredientsOf s rid := by rw [← hrowr]
  have hcatnd : r.categories.Nodup := by
    rw [hrcat]
    exact labelNamesOf_nodup s.recipe_categories s.categories rid
      hwf.rc_pairs hwf.cat_names
  have hingnd : (r.ingredients.map IngredientOut.name).Nodup := by
    rw [hring]
    exact ingRowsOf_names_nodup s.recipe_ingredients s.ingredients rid
      hwf.ri_pairs hwf.ing_names
  have hsome2 : ∀ g ∈ r.ingredients.map (fun i =>
      ({ name := some i.name
         quantity := i.quantity
         unit := i.unit
         notes := i.notes
         category := i.category } : IngredientData)), g.name.isSome := by
    intro g hg
    obtain ⟨i, _, rfl⟩ := List.mem_map.1 hg
    rfl
  have hnd2 : ((r.ingredients.map (fun i =>
      ({ name := some i.name
         quantity := i.quantity
         unit := i.unit
         notes := i.notes
         category := i.category } : IngredientData))).map
        IngredientData.name).Nodup := by
    rw [List.map_map]
    have h0 := hingnd.map (Option.some_injective String)
    rw [List.map_map] at h0
    exact h0
  have hstage0 : add_recipe freshStore (recipeToData r)
      = (ingsStageAdd
          (tagsStageAdd
            (catsStageAdd
              { freshStore with
                  recipes := freshStore.recipes
                    ++ [newRecipeRow freshStore r.name (recipeToData r)]
                  next_recipe_id := freshStore.next_recipe_id + 1 }
              1 (recipeToData r).categories)
            1 (recipeToData r).tags)
          1 (recipeToData r).ingredients).map (fun p => (p, 1)) := rfl
  set A1 : Store := { freshStore with
      recipes := freshStore.recipes
        ++ [newRecipeRow freshStore r.name (recipeToData r)]
      next_recipe_id := freshStore.next_recipe_id + 1 } with hA1
  set A2 : Store := catsStageAdd A1 1 (recipeToData r).categories with hA2
  set A3 : Store := tagsStageAdd A2 1 (recipeToData r).tags with hA3
  have hcf := catsStageAdd_frame 1 (recipeToData r).categories A1
  rw [← hA2] at hcf
  obtain ⟨hcf1, hcf2, hcf3, hcf4, hcf5, hcf6, hcf7, hcf8, hcf9, hcf10,
    hcf11, hcf12⟩ := hcf
  have htf := tagsStageAdd_frame 1 (recipeToData r).tags A2
  rw [← hA3] at htf
  obtain ⟨htf1, htf2, htf3, htf4, htf5, htf6, htf7, htf8, htf9, htf10,
    htf11, htf12⟩ := htf
  have hdc : (recipeToData r).categories = some r.categories := rfl
  have hcnames : recipeCategoryNames A2 1 = r.categories := by
    rw [hA2, hdc]
    exact catsStageAdd_names A1 1 r.categories WF_freshStore.cat_names
      WF_freshStore.cat_ids WF_freshStore.cat_lt rfl hcatnd
  have hie : A3.ingredients = [] := by
    rw [htf3, hcf3]
    rfl
  have hre : A3.recipe_ingredients = [] := by
    rw [htf5, hcf5]
    rfl
  obtain ⟨s4, hstep, hingnames⟩ := ingsStageAdd_roundtrip A3 1
    (r.ingredients.map (fun i =>
      ({ name := some i.name
         quantity := i.quantity
         unit := i.unit
         notes := i.notes
         category := i.category } : IngredientData)))
    hie hre hsome2 hnd2
  have hdi : (recipeToData r).ingredients
      = some (r.ingredients.map (fun i =>
        ({ name := some i.name
           quantity := i.quantity
           unit := i.unit
           notes := i.notes
           category := i.category } : IngredientData))) := rfl
  have hadd : add_recipe freshStore (recipeToData r) = .ok (s4, 1) := by
    rw [hstage0, hdi, hstep]
    rfl
  have himp : import_recipe_from_json freshStore
      (export_recipe_to_json s rid) = .imported s4 1 := by
    rw [hexp]
    simp only [import_recipe_from_json, hadd]
  obtain ⟨hif1, hif2, hif3, hif4, hif5, hif6, hif7, hif8, hif9, hif10,
    hif11, hif12⟩ := ingsStageAdd_frame 1 _ A3 s4 hstep
  have hrecs : s4.recipes
      = [newRecipeRow freshStore r.name (recipeToData r)] := by
    rw [hif1, htf1, hcf1]
    rfl
  have hget2 : get_recipe s4 1 = some
      ⟨1, r.name, r.description, r.instructions, r.prep_time, r.cook_time,
       r.servings, r.difficulty, r.source, r.notes, r.favorite,
       recipeIngredientsOf s4 1, recipeCategoryNames s4 1,
       recipeTagNames s4 1⟩ := by
    rw [get_recipe, hrecs]
    rfl
  refine ⟨s4, _, himp, hget2, rfl, rfl, ?_, ?_⟩
  · show recipeCategoryNames s4 1 = r.categories
    have hstep2 : recipeCategoryNames s4 1 = recipeCategoryNames A2 1 := by
      rw [recipeCategoryNames, recipeCategoryNames, hif4, htf4, hif2, htf2]
    rw [hstep2, hcnames]
  · show (recipeIngredientsOf s4 1).map (fun i => (i.name, i.quantity, i.unit))
      = r.ingredients.map (fun i => (i.name, i.quantity, i.unit))
    rw [hingnames, List.map_map]
    rfl

/-- A store with one fully populated recipe, used to witness the
export / import roundtrip. -/
def c5Store : Store :=
  { recipes := [⟨1, "Pie", "d", "mix", 1, 2, 3, "easy", "src", "n", true⟩]
    categories := [⟨1, "Dessert"⟩]
    tags := []
    ingredients := [⟨1, "Apple", "Fruit", "kg"⟩]
    recipe_categories := [⟨1, 1⟩]
    recipe_tags := []
    recipe_ingredients := [⟨1, 1, 2, "kg", ""⟩]
    shopping_lists := []
    shopping_list_items := []
    next_recipe_id := 2
    next_category_id := 2
    next_tag_id := 1
    next_ingredient_id := 2
    next_list_id := 1
    next_item_id := 1 }

/-- The recipe read back from c5Store before exporting it. -/
def c5Recipe : Recipe :=
  (get_recipe c5Store 1).getD
    ⟨0, "", "", "", 0, 0, 0, "", "", "", false, [], [], []⟩

/-- Witness for C5 at a concrete store: exporting recipe 1 of c5Store and
importing it into a fresh store reproduces its name, instructions,
categories and ingredient triples. -/
theorem export_import_roundtrip_witness :
    WF c5Store ∧
    get_recipe c5Store 1 = some c5Recipe ∧
    (export_recipe_to_json c5Store 1 = some (.obj (recipeToData c5Recipe)) ∧
      ∃ s4 r2,
        import_recipe_from_json freshStore (export_recipe_to_json c5Store 1)
          = .imported s4 1 ∧
        get_recipe s4 1 = some r2 ∧
        r2.name = c5Recipe.name ∧
        r2.instructions = c5Recipe.instructions ∧
        r2.categories = c5Recipe.categories ∧
        r2.ingredients.map (fun i => (i.name, i.quantity, i.unit))
          = c5Recipe.ingredients.map
              (fun i => (i.name, i.quantity, i.unit))) := by
  have hwf : WF c5Store := by constructor <;> decide
  have hget : get_recipe c5Store 1 = some c5Recipe := rfl
  exact ⟨hwf, hget, export_import_roundtrip c5Store hwf 1 c5Recipe hget⟩

/-- A store holding one recipe with id 1, used for the import claims. -/
def c6Store : Store :=
  { recipes := [⟨1, "Old", "", "", 0, 0, 0, "", "", "", false⟩]
    categories := []
    tags := []
    ingredients := []
    recipe_categories := []
    recipe_tags := []
    recipe_ingredients := []
    shopping_lists := []
    shopping_list_items := []
    next_recipe_id := 2
    next_category_id := 1
    next_tag_id := 1
    next_ingredient_id := 1
    next_list_id := 1
    next_item_id := 1 }

/-- An import payload carrying the id of the existing record 1 and a new
name. -/
def c6Data : RecipeData :=
  { id := some 1
    name := some "New" }

/-- The store produced by importing c6Data into c6Store. -/
def c6s2 : Store :=
  match import_recipe_from_json c6Store (some (.obj c6Data)) with
  | .imported s _ => s
  | _ => c6Store

/-- Counterexample to C6: recipe id 1 exists in c6Store and the payload
supplies id 1, yet the import inserts a second record under the fresh id 2
instead of updating record 1 (which keeps its old name), and a payload
without a name raises the NOT NULL integrity error out of the function
instead of failing gracefully. -/
theorem import_id_does_not_update_cex :
    (∃ r ∈ c6Store.recipes, r.id = 1) ∧
    c6Data.id = some 1 ∧
    import_recipe_from_json c6Store (some (.obj c6Data))
      = .imported c6s2 2 ∧
    c6s2.recipes.length = 2 ∧
    (∀ r ∈ c6s2.recipes, r.id = 1 → r.name = "Old") ∧
    import_recipe_from_json c6Store
        (some (.obj ({ name := none } : RecipeData)))
      = .raised .notNullViolation := by
  refine ⟨by decide, rfl, rfl, by decide, by decide, rfl⟩

/-- Claim C6 (amended): import returns a parse failure, with the store
untouched, exactly for undecodable input; a non-object payload raises
AttributeError and an object payload without a name raises the NOT NULL
integrity error, neither being caught; every named object payload goes to
add_recipe, which always inserts: a successful import assigns the fresh
rowid regardless of any supplied id, appends the new row and preserves all
prior recipe rows -- no update of an existing record ever happens. -/
theorem import_payload_semantics (s : Store) (j : Option JsonValue) :
    (j = none → import_recipe_from_json s j = .parseError) ∧
    (j = some .nonObj →
      import_recipe_from_json s j = .raised .attributeError) ∧
    (∀ d, j = some (.obj d) → d.name = none →
      import_recipe_from_json s j = .raised .notNullViolation) ∧
    (∀ d nm, j = some (.obj d) → d.name = some nm →
      ∀ s2 rid2, import_recipe_from_json s j = .imported s2 rid2 →
        rid2 = s.next_recipe_id ∧
        s2.recipes = s.recipes ++ [newRecipeRow s nm d] ∧
        s2.next_recipe_id = s.next_recipe_id + 1) := by
  refine ⟨?_, ?_, ?_, ?_⟩
  · intro h
    subst h
    rfl
  · intro h
    subst h
    rfl
  · intro d hj hdn
    subst hj
    have hadd : add_recipe s d = .error .notNullViolation := by
      unfold add_recipe
      rw [hdn]
    simp only [import_recipe_from_json, hadd]
  · intro d nm hj hdn s2 rid2 himp
    subst hj
    rcases hadd : add_recipe s d with e | p
    · simp only [import_recipe_from_json, hadd] at himp
      exact absurd himp (by simp)
    · rcases p with ⟨s3, rid3⟩
      simp only [import_recipe_from_json, hadd,
        ImportResult.imported.injEq] at himp
      obtain ⟨hs, hr⟩ := himp
      obtain ⟨ha1, ha2, ha3, _, _⟩ := add_recipe_ok_anatomy s d nm hdn s3
        rid3 hadd
      subst hs
      subst hr
      exact ⟨ha1, ha2, ha3⟩

/-- Witness for the amended C6 at concrete inputs: the four payload shapes
behave as stated, and the named payload carrying an existing id is inserted
under the fresh id 2 with the prior row preserved. -/
theorem import_payload_semantics_witness :
    import_recipe_from_json c6Store none = .parseError ∧
    import_recipe_from_json c6Store (some .nonObj)
      = .raised .attributeError ∧
    import_recipe_from_json c6Store
        (some (.obj ({ name := none } : RecipeData)))
      = .raised .notNullViolation ∧
    (2 = c6Store.next_recipe_id ∧
      c6s2.recipes = c6Store.recipes ++ [newRecipeRow c6Store "New" c6Data] ∧
      c6s2.next_recipe_id = c6Store.next_recipe_id + 1) := by
  refine ⟨(import_payload_semantics c6Store none).1 rfl,
    (import_payload_semantics c6Store (some .nonObj)).2.1 rfl,
    (import_payload_semantics c6Store
      (some (.obj ({ name := none } : RecipeData)))).2.2.1
      ({ name := none } : RecipeData) rfl rfl,
    (import_payload_semantics c6Store (some (.obj c6Data))).2.2.2
      c6Data "New" rfl rfl c6s2 2 rfl⟩
